import Mathlib

/-!
Verification of the ranking engine of `src/services/localAlbumService.ts`
(the album-battle ranking service).

The service stores a whole collection of albums as one blob (browser
`localStorage` under a fixed key).  Every public operation reads the whole
collection through `getAlbums` (which normalizes missing fields, sorts by
points descending and reassigns ranks), mutates it in memory, and writes the
whole collection back.  We embed the service shallowly:

* `Album` mirrors the TypeScript `Album` interface (all fields present);
* `StoredAlbum` mirrors a persisted record, where `points` and `battledWith`
  may be missing (records written before those fields existed);
* `Store` models the persisted blob: absent key, corrupt JSON, or a list of
  records.  Both absent and corrupt are read back as the empty collection.
* each service function becomes a pure function from the old `Store` to an
  `Except` of the result and the new `Store`; a thrown JS exception becomes
  `Except.error`, in which case nothing is written (the `localStorage.setItem`
  call is never reached).

JavaScript object aliasing matters in `recordBattle`: `album1` and `album2`
are references into the same array, so when the two ids coincide both
mutations hit the same element.  We capture this by performing the mutations
sequentially on the list (`listModify` at an index), exactly in source order.
-/

namespace Gauntlet

/-- In-memory album record, as in the `Album` interface of
`localAlbumService.ts`.  `points` is the score accumulator, `battledWith`
the list of opponent ids. -/
structure Album where
  id : String
  title : String
  artist : String
  releaseYear : String
  coverArtUrl : Option String
  mbid : String
  rank : Int
  points : Int
  battledWith : List String
deriving DecidableEq, Repr

/-- A persisted album record.  Records written before the `points` /
`battledWith` fields existed may lack them, hence the `Option`s; `getAlbums`
fills the defaults on every read. -/
structure StoredAlbum where
  id : String
  title : String
  artist : String
  releaseYear : String
  coverArtUrl : Option String
  mbid : String
  rank : Int
  points : Option Int
  battledWith : Option (List String)
deriving DecidableEq, Repr

/-- The persisted blob under the fixed `localStorage` key: the key may be
absent, hold unparsable JSON, or hold a list of records. -/
inductive Store where
  | absent : Store
  | corrupt : Store
  | present : List StoredAlbum → Store
deriving DecidableEq, Repr

/-- A catalog search result, as in the `AlbumSearchResult` interface of
`musicbrainzApi.ts`; its `id` is the MusicBrainz id (`mbid`). -/
structure AlbumSearchResult where
  id : String
  title : String
  artist : String
  releaseYear : String
  coverArtUrl : Option String
deriving DecidableEq, Repr

/-- The error kinds thrown by the service (the source throws `Error`s with
distinguishing messages; we name the kinds). -/
inductive SvcError where
  | notFound : SvcError
  | duplicate : SvcError
  | alreadyBattled : SvcError
  | invalidWinner : SvcError
deriving DecidableEq, Repr

/-- Result of `recordBattle`.  The source returns references to the winner and
loser `Album` objects; only their identity is relevant here, so we record
their ids (`none` on a draw). -/
structure BattleResult where
  winnerId : Option String
  loserId : Option String
  isDraw : Bool
  winnerPoints : Int
  loserPoints : Int
deriving DecidableEq, Repr

/-- Fill the defaults on read, as in the `albums.map` step of `getAlbums`:
a missing `points` becomes `0`, a missing `battledWith` becomes `[]`. -/
def fill (s : StoredAlbum) : Album :=
  { id := s.id, title := s.title, artist := s.artist,
    releaseYear := s.releaseYear, coverArtUrl := s.coverArtUrl, mbid := s.mbid,
    rank := s.rank, points := s.points.getD 0,
    battledWith := s.battledWith.getD [] }

/-- What `JSON.stringify` persists for an in-memory album: every field
present. -/
def toStored (a : Album) : StoredAlbum :=
  { id := a.id, title := a.title, artist := a.artist,
    releaseYear := a.releaseYear, coverArtUrl := a.coverArtUrl, mbid := a.mbid,
    rank := a.rank, points := some a.points,
    battledWith := some a.battledWith }

/-- One step of the stable descending sort on `points`
(the `sort((a, b) => b.points - a.points)` call; `Array.prototype.sort` is
stable, so an element is inserted after all earlier elements with ≥ points). -/
def insertDesc (a : Album) : List Album → List Album
  | [] => [a]
  | b :: l => if b.points ≤ a.points then a :: b :: l else b :: insertDesc a l

/-- Stable sort by `points` descending. -/
def sortByPoints (l : List Album) : List Album := l.foldr insertDesc []

/-- The `forEach` that overwrites `rank` with position + 1, generalized over
the starting rank. -/
def assignRanksFrom (n : Int) : List Album → List Album
  | [] => []
  | a :: l => { a with rank := n } :: assignRanksFrom (n + 1) l

/-- Reassign ranks densely: the album at index `i` gets rank `i + 1`. -/
def assignRanks (l : List Album) : List Album := assignRanksFrom 1 l

/-- Reading the raw blob: an absent key or corrupt JSON yields the empty
collection (the `try`/`catch` and the `storedAlbums ? ... : []` branch). -/
def loadRecords : Store → List StoredAlbum
  | .absent => []
  | .corrupt => []
  | .present l => l

/-- `getAlbums`: load, fill defaults, sort by points descending (stable),
reassign ranks by position. -/
def getAlbums (store : Store) : List Album :=
  assignRanks (sortByPoints ((loadRecords store).map fill))

/-- `Math.max(...albums.map(a => a.rank))` guarded by `albums.length > 0`,
with `0` for the empty collection. -/
def maxRank (albums : List Album) : Int :=
  match albums.map (fun a => a.rank) with
  | [] => 0
  | r :: rs => rs.foldl max r

/-- `addAlbum`: reject a duplicate `mbid`, otherwise append a fresh album with
rank `maxRank + 1`, zero points and no opponents, and persist.  The source
generates the id from `Date.now()`; the generated id is passed in as
`newId`. -/
def addAlbum (albumData : AlbumSearchResult) (newId : String) (store : Store) :
    Except SvcError (Album × Store) :=
  let albums := getAlbums store
  if albums.any (fun album => album.mbid = albumData.id) then
    .error .duplicate
  else
    let newAlbum : Album :=
      { id := newId, title := albumData.title, artist := albumData.artist,
        releaseYear := albumData.releaseYear,
        coverArtUrl := albumData.coverArtUrl, mbid := albumData.id,
        rank := maxRank albums + 1, points := 0, battledWith := [] }
    .ok (newAlbum, .present ((albums ++ [newAlbum]).map toStored))

/-- In-place update of the element at an index (a JS mutation through an array
reference). -/
def listModify {α : Type} : List α → Nat → (α → α) → List α
  | [], _, _ => []
  | a :: l, 0, f => f a :: l
  | a :: l, n + 1, f => a :: listModify l n f

/-- The rank shift applied to every album by the two `forEach` branches of
`updateAlbumRank` (move down / move up / no-op). -/
def shiftRank (oldRank newRank : Int) (a : Album) : Album :=
  if oldRank < newRank then
    if oldRank < a.rank ∧ a.rank ≤ newRank then { a with rank := a.rank - 1 }
    else a
  else if newRank < oldRank then
    if newRank ≤ a.rank ∧ a.rank < oldRank then { a with rank := a.rank + 1 }
    else a
  else a

/-- `updateAlbumRank`: shift the ranks of the albums between the old and the
new rank, then set the moved album's rank to `newRank`, and persist.  The
source also returns the moved album object; only the persisted state is
modeled. -/
def updateAlbumRank (albumId : String) (newRank : Int) (store : Store) :
    Except SvcError Store :=
  let albums := getAlbums store
  match albums.findIdx? (fun album => album.id = albumId) with
  | none => .error .notFound
  | some albumIndex =>
    match albums[albumIndex]? with
    | none => .error .notFound
    | some album =>
      let oldRank := album.rank
      let shifted := albums.map (shiftRank oldRank newRank)
      let result := listModify shifted albumIndex
        (fun a => { a with rank := newRank })
      .ok (.present (result.map toStored))

/-- `deleteAlbum`: remove the album at the first index with the given id,
decrement the rank of every album ranked below it, persist. -/
def deleteAlbum (albumId : String) (store : Store) : Except SvcError Store :=
  let albums := getAlbums store
  match albums.findIdx? (fun album => album.id = albumId) with
  | none => .error .notFound
  | some albumIndex =>
    match albums[albumIndex]? with
    | none => .error .notFound
    | some deletedAlbum =>
      let remaining := albums.eraseIdx albumIndex
      let adjusted := remaining.map (fun album =>
        if deletedAlbum.rank < album.rank then { album with rank := album.rank - 1 }
        else album)
      .ok (.present (adjusted.map toStored))

/-- `battledWith.push(oppId)` on one album. -/
def pushOpponent (oppId : String) (a : Album) : Album :=
  { a with battledWith := a.battledWith ++ [oppId] }

/-- `points += n` on one album. -/
def addPoints (n : Int) (a : Album) : Album := { a with points := a.points + n }

/-- The two `battledWith.push` calls of `recordBattle`, performed
sequentially through array references — when the two indices coincide both
pushes hit the same element. -/
def pairedList (album1Index album2Index : Nat) (album1 album2 : Album)
    (albums : List Album) : List Album :=
  listModify (listModify albums album1Index (pushOpponent album2.id))
    album2Index (pushOpponent album1.id)

/-- The mutation block of `recordBattle`: record the pairing in both albums'
`battledWith` and award the points (draw: +1 each; decisive: +3 to the
winner), or `none` for an invalid winner id. -/
def battleScored (album1Index album2Index : Nat) (album1 album2 : Album)
    (winnerId : Option String) (albums : List Album) :
    Option (List Album × BattleResult) :=
  let paired := pairedList album1Index album2Index album1 album2 albums
  match winnerId with
  | none =>
    some (listModify (listModify paired album1Index (addPoints 1))
            album2Index (addPoints 1),
      { winnerId := none, loserId := none, isDraw := true,
        winnerPoints := 1, loserPoints := 1 })
  | some w =>
    if w = album1.id then
      some (listModify paired album1Index (addPoints 3),
        { winnerId := some album1.id, loserId := some album2.id,
          isDraw := false, winnerPoints := 3, loserPoints := 0 })
    else if w = album2.id then
      some (listModify paired album2Index (addPoints 3),
        { winnerId := some album2.id, loserId := some album1.id,
          isDraw := false, winnerPoints := 3, loserPoints := 0 })
    else none

/-- `recordBattle`: reject an unknown id or an already-battled pair, apply
the mutation block `battleScored`, re-sort by points and reassign ranks,
persist.  The source does not reject a self-battle (`album1Id = album2Id`). -/
def recordBattle (album1Id album2Id : String) (winnerId : Option String)
    (store : Store) : Except SvcError (BattleResult × Store) :=
  let albums := getAlbums store
  match albums.findIdx? (fun album => album.id = album1Id),
        albums.findIdx? (fun album => album.id = album2Id) with
  | some album1Index, some album2Index =>
    match albums[album1Index]?, albums[album2Index]? with
    | some album1, some album2 =>
      if album1.battledWith.contains album2.id then
        .error .alreadyBattled
      else
        match battleScored album1Index album2Index album1 album2 winnerId albums with
        | none => .error .invalidWinner
        | some (scored, result) =>
          .ok (result, .present ((assignRanks (sortByPoints scored)).map toStored))
    | _, _ => .error .notFound
  | _, _ => .error .notFound

/-- The double loop of `getPossibleBattles` over one collection: for each
outer index `i` (ascending) and inner index `j > i` (ascending), emit the
pair unless `albums[i].battledWith` contains `albums[j].id`. -/
def possiblePairs : List Album → List (Album × Album)
  | [] => []
  | a :: rest =>
    ((rest.filter (fun b => ¬ a.battledWith.contains b.id)).map (fun b => (a, b)))
      ++ possiblePairs rest

/-- `getPossibleBattles`: all not-yet-battled pairs, in loop order. -/
def getPossibleBattles (store : Store) : List (Album × Album) :=
  possiblePairs (getAlbums store)

/-- `getNextBattle`: the first possible battle, or `none` when none remain. -/
def getNextBattle (store : Store) : Option (Album × Album) :=
  (getPossibleBattles store).head?

/-- `reorderAlbums`: look up the dragged and target albums, move the dragged
album to the target's rank via `updateAlbumRank`, and return the refreshed
collection read back through `getAlbums`. -/
def reorderAlbums (draggedId targetId : String) (store : Store) :
    Except SvcError (List Album × Store) :=
  let albums := getAlbums store
  match albums.findIdx? (fun album => album.id = draggedId),
        albums.findIdx? (fun album => album.id = targetId) with
  | some _, some targetIndex =>
    match albums[targetIndex]? with
    | none => .error .notFound
    | some targetAlbum =>
      match updateAlbumRank draggedId targetAlbum.rank store with
      | .error e => .error e
      | .ok s₁ => .ok (getAlbums s₁, s₁)
  | _, _ => .error .notFound

/-- The store after a call of `addAlbum`: on an exception nothing is written
(`localStorage.setItem` is unreached), so the store is unchanged. -/
def runAdd (albumData : AlbumSearchResult) (newId : String) (s : Store) : Store :=
  match addAlbum albumData newId s with
  | .ok (_, s₁) => s₁
  | .error _ => s

/-- The store after a call of `recordBattle`: unchanged on an exception. -/
def runBattle (album1Id album2Id : String) (winnerId : Option String)
    (s : Store) : Store :=
  match recordBattle album1Id album2Id winnerId s with
  | .ok (_, s₁) => s₁
  | .error _ => s

/-- The store after a call of `deleteAlbum`: unchanged on an exception. -/
def runDelete (albumId : String) (s : Store) : Store :=
  match deleteAlbum albumId s with
  | .ok s₁ => s₁
  | .error _ => s

/-- The store after a call of `updateAlbumRank`: unchanged on an exception. -/
def runUpdateRank (albumId : String) (newRank : Int) (s : Store) : Store :=
  match updateAlbumRank albumId newRank s with
  | .ok s₁ => s₁
  | .error _ => s

/-- The store after a call of `reorderAlbums`: unchanged on an exception. -/
def runReorder (draggedId targetId : String) (s : Store) : Store :=
  match reorderAlbums draggedId targetId s with
  | .ok (_, s₁) => s₁
  | .error _ => s

/-- One requested battle: the arguments of one `recordBattle` call. -/
structure BattleCmd where
  album1Id : String
  album2Id : String
  winnerId : Option String
deriving DecidableEq, Repr

/-- Run a sequence of `recordBattle` calls; a failed call leaves the store
unchanged. -/
def runBattles (s : Store) : List BattleCmd → Store
  | [] => s
  | c :: cs => runBattles (runBattle c.album1Id c.album2Id c.winnerId s) cs

/-- Count the successful decisive battles and the successful draws in a
sequence of `recordBattle` calls (in that order). -/
def succCounts (s : Store) : List BattleCmd → Nat × Nat
  | [] => (0, 0)
  | c :: cs =>
    let rest := succCounts (runBattle c.album1Id c.album2Id c.winnerId s) cs
    match recordBattle c.album1Id c.album2Id c.winnerId s with
    | .ok _ =>
      match c.winnerId with
      | none => (rest.1, rest.2 + 1)
      | some _ => (rest.1 + 1, rest.2)
    | .error _ => rest

/-- Total of all albums' points. -/
def sumPoints (l : List Album) : Int := (l.map (fun a => a.points)).sum

/-- An album with its `rank` field blanked: the part of an album that the
rank-reassignment steps never touch. -/
def noRank (a : Album) : Album := { a with rank := 0 }

/-- Sorted by points, descending. -/
def SortedDesc (l : List Album) : Prop :=
  l.Pairwise (fun a b => b.points ≤ a.points)

/-! ### Lemmas about `listModify` -/

theorem listModify_length {α : Type} (l : List α) (i : Nat) (f : α → α) :
    (listModify l i f).length = l.length := by
  induction l generalizing i with
  | nil => rfl
  | cons a l ih =>
    cases i with
    | zero => rfl
    | succ n => simp [listModify, ih]

theorem listModify_getElem? {α : Type} (l : List α) (i : Nat) (f : α → α)
    (j : Nat) :
    (listModify l i f)[j]? = if i = j then (l[j]?).map f else l[j]? := by
  induction l generalizing i j with
  | nil => simp [listModify]
  | cons a l ih =>
    cases i with
    | zero =>
      cases j with
      | zero => simp [listModify]
      | succ m => simp [listModify]
    | succ n =>
      cases j with
      | zero => simp [listModify]
      | succ m => simpa [listModify] using ih n m

theorem listModify_map_invariant {α β : Type} (l : List α) (i : Nat)
    (f : α → α) (g : α → β) (h : ∀ a, g (f a) = g a) :
    (listModify l i f).map g = l.map g := by
  induction l generalizing i with
  | nil => rfl
  | cons a l ih =>
    cases i with
    | zero => simp [listModify, h]
    | succ n => simp [listModify, ih]

theorem listModify_map_comm {α β : Type} (l : List α) (i : Nat)
    (f : α → α) (g : α → β) (f' : β → β) (h : ∀ a, g (f a) = f' (g a)) :
    (listModify l i f).map g = listModify (l.map g) i f' := by
  induction l generalizing i with
  | nil => rfl
  | cons a l ih =>
    cases i with
    | zero => simp [listModify, h]
    | succ n => simp [listModify, ih]

theorem listModify_sum_add (l : List Int) (i : Nat) (n : Int)
    (hi : i < l.length) :
    (listModify l i (fun x => x + n)).sum = l.sum + n := by
  induction l generalizing i with
  | nil => simp at hi
  | cons a l ih =>
    cases i with
    | zero => simp [listModify]; ring
    | succ m =>
      have hm : m < l.length := by simpa using hi
      simp only [listModify, List.sum_cons, ih m hm]
      ring

/-! ### Lemmas about the stable sort `sortByPoints` -/

theorem noRank_points (a : Album) : (noRank a).points = a.points := rfl

theorem noRank_id (a : Album) : (noRank a).id = a.id := rfl

theorem insertDesc_perm (a : Album) (l : List Album) :
    List.Perm (insertDesc a l) (a :: l) := by
  induction l with
  | nil => exact List.Perm.refl _
  | cons b l ih =>
    by_cases h : b.points ≤ a.points
    · rw [show insertDesc a (b :: l) = a :: b :: l from by simp [insertDesc, h]]
    · rw [show insertDesc a (b :: l) = b :: insertDesc a l from by
        simp [insertDesc, h]]
      exact ((ih.cons b).trans (List.Perm.swap a b l))

theorem sortByPoints_perm (l : List Album) :
    List.Perm (sortByPoints l) l := by
  induction l with
  | nil => exact List.Perm.refl _
  | cons a l ih =>
    exact (insertDesc_perm a (sortByPoints l)).trans (ih.cons a)

theorem mem_insertDesc {a b : Album} {l : List Album} :
    b ∈ insertDesc a l ↔ b = a ∨ b ∈ l := by
  constructor
  · intro h
    have := (insertDesc_perm a l).mem_iff.mp h
    simpa using this
  · intro h
    apply (insertDesc_perm a l).mem_iff.mpr
    simpa using h

theorem insertDesc_sorted {a : Album} {l : List Album} (h : SortedDesc l) :
    SortedDesc (insertDesc a l) := by
  induction l with
  | nil => simp [insertDesc, SortedDesc]
  | cons b l ih =>
    rcases (List.pairwise_cons.mp h) with ⟨hb, hl⟩
    by_cases hba : b.points ≤ a.points
    · rw [show insertDesc a (b :: l) = a :: b :: l from by simp [insertDesc, hba]]
      refine List.pairwise_cons.mpr ⟨?_, h⟩
      intro c hc
      rcases List.mem_cons.mp hc with rfl | hc
      · exact hba
      · exact le_trans (hb c hc) hba
    · rw [show insertDesc a (b :: l) = b :: insertDesc a l from by
        simp [insertDesc, hba]]
      refine List.pairwise_cons.mpr ⟨?_, ih hl⟩
      intro c hc
      rcases mem_insertDesc.mp hc with rfl | hc
      · exact le_of_not_le hba
      · exact hb c hc

theorem sortByPoints_sorted (l : List Album) : SortedDesc (sortByPoints l) := by
  induction l with
  | nil => simp [sortByPoints, SortedDesc]
  | cons a l ih => exact insertDesc_sorted ih

theorem insertDesc_of_le {a : Album} {l : List Album}
    (h : ∀ b ∈ l, b.points ≤ a.points) : insertDesc a l = a :: l := by
  cases l with
  | nil => rfl
  | cons b l => simp [insertDesc, h b (by simp)]

theorem sortByPoints_of_sorted {l : List Album} (h : SortedDesc l) :
    sortByPoints l = l := by
  induction l with
  | nil => rfl
  | cons a l ih =>
    rcases (List.pairwise_cons.mp h) with ⟨ha, hl⟩
    have : sortByPoints (a :: l) = insertDesc a (sortByPoints l) := rfl
    rw [this, ih hl]
    exact insertDesc_of_le ha

theorem filter_insertDesc (q : Int) (a : Album) (l : List Album) :
    (insertDesc a l).filter (fun b => b.points = q) =
      if a.points = q then a :: l.filter (fun b => b.points = q)
      else l.filter (fun b => b.points = q) := by
  induction l with
  | nil => by_cases h : a.points = q <;> simp [insertDesc, h]
  | cons b l ih =>
    by_cases hba : b.points ≤ a.points
    · rw [show insertDesc a (b :: l) = a :: b :: l from by simp [insertDesc, hba]]
      by_cases ha : a.points = q <;> by_cases hb : b.points = q <;>
        simp [List.filter_cons, ha, hb]
    · rw [show insertDesc a (b :: l) = b :: insertDesc a l from by
        simp [insertDesc, hba]]
      by_cases hb : b.points = q
      · have ha : ¬ a.points = q := fun haq => hba (le_of_eq (hb.trans haq.symm))
        simp [List.filter_cons, hb, ha, ih]
      · by_cases ha : a.points = q <;> simp [List.filter_cons, hb, ha, ih]

theorem sortByPoints_filter (q : Int) (l : List Album) :
    (sortByPoints l).filter (fun b => b.points = q) =
      l.filter (fun b => b.points = q) := by
  induction l with
  | nil => rfl
  | cons a l ih =>
    have : sortByPoints (a :: l) = insertDesc a (sortByPoints l) := rfl
    rw [this, filter_insertDesc, List.filter_cons]
    by_cases h : a.points = q <;> simp [h, ih]

theorem insertDesc_congr {a a' : Album} {l l' : List Album}
    (ha : noRank a = noRank a') (hl : l.map noRank = l'.map noRank) :
    (insertDesc a l).map noRank = (insertDesc a' l').map noRank := by
  induction l generalizing l' with
  | nil =>
    cases l' with
    | nil => simpa [insertDesc] using ha
    | cons b' t' => simp at hl
  | cons b t ih =>
    cases l' with
    | nil => simp at hl
    | cons b' t' =>
      simp only [List.map_cons, List.cons.injEq] at hl
      have hpa : a.points = a'.points := by
        have := congrArg Album.points ha
        simpa [noRank] using this
      have hpb : b.points = b'.points := by
        have := congrArg Album.points hl.1
        simpa [noRank] using this
      by_cases h : b.points ≤ a.points
      · have h' : b'.points ≤ a'.points := by rw [← hpa, ← hpb]; exact h
        simp [insertDesc, h, h', ha, hl.1, hl.2]
      · have h' : ¬ b'.points ≤ a'.points := by rw [← hpa, ← hpb]; exact h
        simp [insertDesc, h, h', hl.1, ih hl.2]

theorem sortByPoints_congr {l l' : List Album}
    (hl : l.map noRank = l'.map noRank) :
    (sortByPoints l).map noRank = (sortByPoints l').map noRank := by
  induction l generalizing l' with
  | nil =>
    cases l' with
    | nil => rfl
    | cons b' t' => simp at hl
  | cons a t ih =>
    cases l' with
    | nil => simp at hl
    | cons a' t' =>
      simp only [List.map_cons, List.cons.injEq] at hl
      exact insertDesc_congr hl.1 (ih hl.2)

theorem sortedDesc_congr {l l' : List Album}
    (hl : l.map noRank = l'.map noRank) (h : SortedDesc l) : SortedDesc l' := by
  have hp : l.map (fun a => a.points) = l'.map (fun a => a.points) := by
    have : ∀ m : List Album, m.map (fun a => a.points) =
        (m.map noRank).map (fun a => a.points) := by
      intro m
      simp only [List.map_map]
      rfl
    rw [this l, this l', hl]
  have h1 : (l.map (fun a => a.points)).Pairwise (fun x y => y ≤ x) := by
    unfold SortedDesc at h
    exact (List.pairwise_map).mpr h
  rw [hp] at h1
  unfold SortedDesc
  exact (List.pairwise_map).mp h1

/-! ### Lemmas about `assignRanksFrom` / `assignRanks` -/

theorem assignRanksFrom_length (n : Int) (l : List Album) :
    (assignRanksFrom n l).length = l.length := by
  induction l generalizing n with
  | nil => rfl
  | cons a l ih => simp [assignRanksFrom, ih]

theorem assignRanksFrom_map_noRank (n : Int) (l : List Album) :
    (assignRanksFrom n l).map noRank = l.map noRank := by
  induction l generalizing n with
  | nil => rfl
  | cons a l ih => simp [assignRanksFrom, ih, noRank]

theorem assignRanksFrom_getElem? (n : Int) (l : List Album) (k : Nat) :
    (assignRanksFrom n l)[k]? = (l[k]?).map (fun a => { a with rank := n + k }) := by
  induction l generalizing n k with
  | nil => simp [assignRanksFrom]
  | cons a l ih =>
    cases k with
    | zero => simp [assignRanksFrom]
    | succ m =>
      simp only [assignRanksFrom, List.getElem?_cons_succ, ih (n + 1) m]
      have : n + 1 + (m : Int) = n + (m + 1 : Nat) := by push_cast; ring
      rw [this]

theorem assignRanksFrom_idem (n m : Int) (l : List Album) :
    assignRanksFrom n (assignRanksFrom m l) = assignRanksFrom n l := by
  induction l generalizing n m with
  | nil => rfl
  | cons a l ih => simp [assignRanksFrom, ih]

theorem assignRanksFrom_append (n : Int) (l₁ l₂ : List Album) :
    assignRanksFrom n (l₁ ++ l₂) =
      assignRanksFrom n l₁ ++ assignRanksFrom (n + l₁.length) l₂ := by
  induction l₁ generalizing n with
  | nil => simp [assignRanksFrom]
  | cons a l ih =>
    simp only [List.cons_append, assignRanksFrom, List.length_cons,
      List.cons.injEq, true_and, List.append_eq]
    rw [ih (n + 1)]
    congr 1
    congr 1
    push_cast
    ring

theorem assignRanksFrom_congr {l l' : List Album} (n : Int)
    (h : l.map noRank = l'.map noRank) :
    assignRanksFrom n l = assignRanksFrom n l' := by
  induction l generalizing l' n with
  | nil =>
    cases l' with
    | nil => rfl
    | cons b t => simp at h
  | cons a t ih =>
    cases l' with
    | nil => simp at h
    | cons b t' =>
      simp only [List.map_cons, List.cons.injEq] at h
      have ha : ({ a with rank := n } : Album) = { b with rank := n } := by
        have h1 := h.1
        unfold noRank at h1
        cases a; cases b
        simp_all
      simp only [assignRanksFrom, List.cons.injEq]
      exact ⟨ha, ih (n + 1) h.2⟩

theorem assignRanksFrom_map_points (n : Int) (l : List Album) :
    (assignRanksFrom n l).map (fun a => a.points) = l.map (fun a => a.points) := by
  induction l generalizing n with
  | nil => rfl
  | cons a l ih => simp [assignRanksFrom, ih]

theorem assignRanksFrom_rank_mem {n : Int} {l : List Album} {b : Album}
    (h : b ∈ assignRanksFrom n l) : n ≤ b.rank := by
  induction l generalizing n with
  | nil => simp [assignRanksFrom] at h
  | cons a l ih =>
    rcases List.mem_cons.mp h with rfl | h
    · exact le_refl _
    · exact le_trans (by linarith) (ih h)

theorem assignRanksFrom_rank_increasing (n : Int) (l : List Album) :
    (assignRanksFrom n l).Pairwise (fun a b => a.rank < b.rank) := by
  induction l generalizing n with
  | nil => simp [assignRanksFrom]
  | cons a l ih =>
    refine List.pairwise_cons.mpr ⟨?_, ih (n + 1)⟩
    intro b hb
    have := assignRanksFrom_rank_mem hb
    simpa using lt_of_lt_of_le (by linarith) this

theorem assignRanksFrom_sorted {n : Int} {l : List Album} (h : SortedDesc l) :
    SortedDesc (assignRanksFrom n l) :=
  sortedDesc_congr (assignRanksFrom_map_noRank n l).symm h

theorem assignRanksFrom_map_rank (n : Int) (l : List Album) :
    (assignRanksFrom n l).map (fun a => a.rank) =
      (List.range l.length).map (fun k : Nat => n + (k : Int)) := by
  apply List.ext_getElem?
  intro k
  simp only [List.getElem?_map, assignRanksFrom_getElem?, Option.map_map]
  by_cases hk : k < l.length
  · rw [List.getElem?_eq_getElem hk,
      List.getElem?_eq_getElem (by simpa : k < (List.range l.length).length)]
    simp [Function.comp]
  · rw [List.getElem?_eq_none (by omega),
      List.getElem?_eq_none (by simp only [List.length_range]; omega)]
    simp

/-! ### The normalization `getAlbums` -/

theorem fill_toStored (a : Album) : fill (toStored a) = a := rfl

theorem getAlbums_present_toStored (l : List Album) :
    getAlbums (.present (l.map toStored)) = assignRanks (sortByPoints l) := by
  unfold getAlbums loadRecords
  rw [List.map_map]
  have : (fill ∘ toStored) = id := by
    funext a
    exact fill_toStored a
  rw [this, List.map_id]

theorem assignRanks_sortByPoints_idem (l : List Album) :
    assignRanks (sortByPoints (assignRanks (sortByPoints l))) =
      assignRanks (sortByPoints l) := by
  unfold assignRanks
  have hs : SortedDesc (assignRanksFrom 1 (sortByPoints l)) :=
    assignRanksFrom_sorted (sortByPoints_sorted l)
  rw [sortByPoints_of_sorted hs, assignRanksFrom_idem]

theorem getAlbums_normalized (l : List Album) :
    getAlbums (.present ((assignRanks (sortByPoints l)).map toStored)) =
      assignRanks (sortByPoints l) := by
  rw [getAlbums_present_toStored, assignRanks_sortByPoints_idem]

theorem getAlbums_getAlbums (s : Store) :
    assignRanks (sortByPoints (getAlbums s)) = getAlbums s := by
  unfold getAlbums
  exact assignRanks_sortByPoints_idem _

theorem assignRanksFrom_filter_noRank (q n : Int) (l : List Album) :
    ((assignRanksFrom n l).filter (fun a => a.points = q)).map noRank =
      (l.filter (fun a => a.points = q)).map noRank := by
  induction l generalizing n with
  | nil => rfl
  | cons a l ih =>
    by_cases h : a.points = q <;>
      simp [assignRanksFrom, List.filter_cons, h, noRank, ih]

/-- The spec's description of the per-record normalization, written from the
spec's words for comparison with the code: a missing score becomes `0`, a
missing opponents set becomes the empty set, all other fields are carried
over; the rank is left blank (`0`) because the spec derives ranks afresh from
the sorted position. -/
def specFilled (s : StoredAlbum) : Album :=
  { id := s.id
    title := s.title
    artist := s.artist
    releaseYear := s.releaseYear
    coverArtUrl := s.coverArtUrl
    mbid := s.mbid
    rank := 0
    points := s.points.getD 0
    battledWith := s.battledWith.getD [] }

/-- C2: `getAlbums` (Load/Normalize) treats an absent or corrupt store as the
empty collection; for a stored list it fills a missing `points` with `0` and a
missing `battledWith` with `[]` (the returned collection is, up to the
reassigned ranks, a permutation of the filled records), sorts by points
descending so that along the output non-increasing points go with strictly
increasing (hence non-decreasing) rank, the sort is stable (albums with any
fixed points value keep their relative stored order), and the returned ranks
are exactly `1..N` in output order. -/
theorem getAlbums_load_normalize :
    getAlbums .absent = [] ∧ getAlbums .corrupt = [] ∧
    ∀ l : List StoredAlbum,
      List.Perm ((getAlbums (.present l)).map noRank) (l.map specFilled) ∧
      (getAlbums (.present l)).Pairwise
        (fun a b => b.points ≤ a.points ∧ a.rank < b.rank) ∧
      (∀ q : Int,
        (((getAlbums (.present l)).filter (fun a => a.points = q)).map noRank) =
          ((l.map specFilled).filter (fun a => a.points = q))) ∧
      (getAlbums (.present l)).map (fun a => a.rank) =
        (List.range l.length).map (fun k : Nat => (k : Int) + 1) := by
  refine ⟨rfl, rfl, fun l => ⟨?_, ?_, ?_, ?_⟩⟩
  · have h1 : (getAlbums (.present l)).map noRank =
        (sortByPoints ((loadRecords (.present l)).map fill)).map noRank := by
      unfold getAlbums assignRanks
      exact assignRanksFrom_map_noRank 1 _
    rw [h1]
    have h2 := (sortByPoints_perm ((loadRecords (.present l)).map fill)).map noRank
    refine h2.trans ?_
    rw [List.map_map]
    exact List.Perm.refl _
  · unfold getAlbums assignRanks
    exact List.Pairwise.and
      (assignRanksFrom_sorted (sortByPoints_sorted _))
      (assignRanksFrom_rank_increasing 1 _)
  · intro q
    unfold getAlbums assignRanks
    rw [assignRanksFrom_filter_noRank, sortByPoints_filter]
    rw [List.filter_map, List.filter_map, List.map_map]
    rfl
  · unfold getAlbums assignRanks
    rw [assignRanksFrom_map_rank]
    have hlen : (sortByPoints ((loadRecords (.present l)).map fill)).length =
        l.length := by
      rw [(sortByPoints_perm _).length_eq, List.length_map]
      rfl
    rw [hlen]
    apply List.map_congr_left
    intro k _
    ring

/-! ### Manual reorder and the subsequent read -/

theorem noRank_shiftRank (o n : Int) (a : Album) :
    noRank (shiftRank o n a) = noRank a := by
  unfold shiftRank noRank
  split_ifs <;> rfl

theorem updateAlbumRank_eq_ok {s : Store} {albumId : String} (newRank : Int)
    {i : Nat} {album : Album}
    (hidx : (getAlbums s).findIdx? (fun a => a.id = albumId) = some i)
    (hget : (getAlbums s)[i]? = some album) :
    updateAlbumRank albumId newRank s =
      .ok (.present ((listModify ((getAlbums s).map
        (shiftRank album.rank newRank)) i
        (fun a => { a with rank := newRank })).map toStored)) := by
  simp only [updateAlbumRank, hidx, hget]

theorem updateAlbumRank_read {s : Store} {albumId : String} {newRank : Int}
    {s₁ : Store} (h : updateAlbumRank albumId newRank s = .ok s₁) :
    getAlbums s₁ = getAlbums s := by
  rcases hidx : (getAlbums s).findIdx? (fun a => a.id = albumId) with _ | i
  · simp only [updateAlbumRank, hidx] at h
    cases h
  · rcases hget : (getAlbums s)[i]? with _ | album
    · simp only [updateAlbumRank, hidx, hget] at h
      cases h
    · rw [updateAlbumRank_eq_ok newRank hidx hget] at h
      simp only [Except.ok.injEq] at h
      subst h
      rw [getAlbums_present_toStored]
      have hnr : (listModify ((getAlbums s).map (shiftRank album.rank newRank)) i
          (fun a => { a with rank := newRank })).map noRank =
          (getAlbums s).map noRank := by
        rw [listModify_map_invariant
          ((getAlbums s).map (shiftRank album.rank newRank)) i
          (fun a => { a with rank := newRank }) noRank (fun a => rfl),
          List.map_map]
        apply List.map_congr_left
        intro a _
        exact noRank_shiftRank _ _ a
      calc assignRanks (sortByPoints (listModify
            ((getAlbums s).map (shiftRank album.rank newRank)) i
            (fun a => { a with rank := newRank })))
          = assignRanks (sortByPoints (getAlbums s)) :=
            assignRanksFrom_congr 1 (sortByPoints_congr hnr)
        _ = getAlbums s := getAlbums_getAlbums s

/-- C1 (amended): `reorderAlbums` on a collection containing both ids
succeeds and writes the manually reassigned ranks to the store, but the very
next read re-sorts by points and reassigns ranks, so the read-back collection
— including the refreshed collection that `reorderAlbums` itself returns — is
identical to the collection before the reorder.  The manual ordering is
discarded by the next `getAlbums`, not preserved until the next
`recordBattle`. -/
theorem reorder_discarded_on_read (s : Store) (draggedId targetId : String)
    (i j : Nat)
    (hd : (getAlbums s).findIdx? (fun a => a.id = draggedId) = some i)
    (ht : (getAlbums s).findIdx? (fun a => a.id = targetId) = some j) :
    ∃ s₁ : Store, reorderAlbums draggedId targetId s = .ok (getAlbums s, s₁) ∧
      getAlbums s₁ = getAlbums s := by
  have hj : j < (getAlbums s).length :=
    (List.findIdx?_eq_some_iff_getElem.mp ht).fst
  have hi : i < (getAlbums s).length :=
    (List.findIdx?_eq_some_iff_getElem.mp hd).fst
  rcases hget : (getAlbums s)[j]? with _ | target
  · rw [List.getElem?_eq_getElem hj] at hget
    exact absurd hget (by simp)
  · have hupd := updateAlbumRank_eq_ok target.rank hd
      (List.getElem?_eq_getElem hi)
    refine ⟨_, ?_, updateAlbumRank_read hupd⟩
    simp only [reorderAlbums, hd, ht, hget, hupd]
    rw [updateAlbumRank_read hupd]

/-- A stored record with every field present (the shape every write of the
service produces), used to build concrete test collections. -/
def mkStored (i : String) (pts : Int) (bw : List String) : StoredAlbum :=
  { id := i, title := i, artist := i, releaseYear := "2000",
    coverArtUrl := none, mbid := "mb-" ++ i, rank := 0,
    points := some pts, battledWith := some bw }

/-- A concrete collection with three albums at distinct points. -/
def demoC1 : Store :=
  .present [mkStored "a" 4 [], mkStored "b" 2 [], mkStored "c" 0 []]

/-- C1 (counterexample): on the concrete collection `a(4 pts), b(2), c(0)`,
`reorderAlbums "c" "a"` writes the manual rank assignment to the store
(`c` is stored with rank 1, `a` with 2, `b` with 3), yet the subsequent read
returns `a, b, c` with ranks 1, 2, 3 — not the manual order with those ranks
— even though no `recordBattle` has intervened.  The manual rank assignment
does not persist as the ground truth of subsequent reads. -/
theorem reorder_persist_counterexample :
    (loadRecords (runReorder "c" "a" demoC1)).map (fun r => (r.id, r.rank)) =
      [("a", 2), ("b", 3), ("c", 1)] ∧
    (getAlbums (runReorder "c" "a" demoC1)).map (fun a => (a.id, a.rank)) =
      [("a", 1), ("b", 2), ("c", 3)] := by
  constructor <;> rfl

/-- Witness for the amended C1 theorem at the concrete collection `demoC1`. -/
theorem reorder_discarded_on_read_witness :
    (getAlbums demoC1).findIdx? (fun a => a.id = "c") = some 2 ∧
    (getAlbums demoC1).findIdx? (fun a => a.id = "a") = some 0 ∧
    ∃ s₁ : Store, reorderAlbums "c" "a" demoC1 = .ok (getAlbums demoC1, s₁) ∧
      getAlbums s₁ = getAlbums demoC1 :=
  ⟨by rfl, by rfl, reorder_discarded_on_read demoC1 "c" "a" 2 0 (by rfl) (by rfl)⟩

/-! ### The splice behavior of `updateAlbumRank` -/

theorem getAlbums_getElem?_rank (s : Store) (k : Nat) :
    ((getAlbums s)[k]?).map (fun a => a.rank) =
      if k < (getAlbums s).length then some ((k : Int) + 1) else none := by
  rw [show getAlbums s = assignRanksFrom 1 (sortByPoints ((loadRecords s).map fill))
    from rfl, assignRanksFrom_getElem?, assignRanksFrom_length]
  by_cases hk : k < (sortByPoints ((loadRecords s).map fill)).length
  · rw [List.getElem?_eq_getElem hk, if_pos hk]
    simp only [Option.map_map, Option.map_some', Function.comp]
    congr 1
    ring
  · rw [List.getElem?_eq_none (by omega), if_neg hk]
    rfl

theorem getAlbums_rank_at {s : Store} {k : Nat} {a : Album}
    (h : (getAlbums s)[k]? = some a) : a.rank = (k : Int) + 1 := by
  have hk : k < (getAlbums s).length := by
    by_contra hk
    rw [List.getElem?_eq_none (by omega)] at h
    cases h
  have := getAlbums_getElem?_rank s k
  rw [h, if_pos hk] at this
  simpa using this

theorem shiftRank_rank (o n : Int) (a : Album) :
    (shiftRank o n a).rank =
      if o < n ∧ o < a.rank ∧ a.rank ≤ n then a.rank - 1
      else if n < o ∧ n ≤ a.rank ∧ a.rank < o then a.rank + 1
      else a.rank := by
  unfold shiftRank
  split_ifs <;> first | rfl | omega

theorem spliceRanks_perm (N i j : Nat) (hi : i < N) (hj : j < N) :
    List.Perm ((List.range N).map (fun k : Nat =>
        if k = i then (j : Int) + 1
        else if i < k ∧ k ≤ j then (k : Int)
        else if j ≤ k ∧ k < i then (k : Int) + 2
        else (k : Int) + 1))
      ((List.range N).map (fun k : Nat => (k : Int) + 1)) := by
  have hnd1 : ((List.range N).map (fun k : Nat =>
      if k = i then (j : Int) + 1
      else if i < k ∧ k ≤ j then (k : Int)
      else if j ≤ k ∧ k < i then (k : Int) + 2
      else (k : Int) + 1)).Nodup := by
    refine List.Nodup.map_on ?_ (List.nodup_range N)
    intro x hx y hy hxy
    simp only [List.mem_range] at hx hy
    split_ifs at hxy <;> omega
  have hnd2 : ((List.range N).map (fun k : Nat => (k : Int) + 1)).Nodup := by
    refine List.Nodup.map_on ?_ (List.nodup_range N)
    intro x hx y hy hxy
    omega
  apply List.perm_of_nodup_nodup_toFinset_eq hnd1 hnd2
  apply Finset.eq_of_subset_of_card_le
  · intro x hx
    simp only [List.mem_toFinset, List.mem_map, List.mem_range] at hx ⊢
    obtain ⟨k, hk, rfl⟩ := hx
    split_ifs with h1 h2 h3
    · exact ⟨j, hj, rfl⟩
    · exact ⟨k - 1, by omega, by omega⟩
    · exact ⟨k + 1, by omega, by omega⟩
    · exact ⟨k, hk, rfl⟩
  · rw [List.toFinset_card_of_nodup hnd1, List.toFinset_card_of_nodup hnd2]
    simp

/-- C7: on a collection containing both the moved and the target item, the
manual-reorder rank update (`updateAlbumRank` with `newRank` the rank of the
target item) shifts the intervening ranks exactly as specified — when
`oldRank < newRank` every album with `oldRank < rank ≤ newRank` is
decremented, when `oldRank > newRank` every album with
`newRank ≤ rank < oldRank` is incremented, otherwise nothing moves — sets the
moved item's stored rank to `newRank`, and the written rank assignment is a
permutation of `1..N` (the dense single-element move/splice, with no gaps and
no duplicates). -/
theorem updateAlbumRank_splice (s : Store) (draggedId targetId : String)
    (i j : Nat) (moved target : Album)
    (hd : (getAlbums s).findIdx? (fun a => a.id = draggedId) = some i)
    (_ht : (getAlbums s).findIdx? (fun a => a.id = targetId) = some j)
    (hgi : (getAlbums s)[i]? = some moved)
    (hgj : (getAlbums s)[j]? = some target) :
    ∃ L : List StoredAlbum,
      updateAlbumRank draggedId target.rank s = .ok (.present L) ∧
      L.length = (getAlbums s).length ∧
      (∀ k : Nat, k ≠ i →
        (L[k]?).map (fun r => r.rank) = ((getAlbums s)[k]?).map (fun a =>
          if moved.rank < target.rank ∧ moved.rank < a.rank ∧
              a.rank ≤ target.rank then a.rank - 1
          else if target.rank < moved.rank ∧ target.rank ≤ a.rank ∧
              a.rank < moved.rank then a.rank + 1
          else a.rank)) ∧
      (L[i]?).map (fun r => r.rank) = some target.rank ∧
      List.Perm (L.map (fun r => r.rank))
        ((List.range (getAlbums s).length).map (fun k : Nat => (k : Int) + 1)) := by
  have hupd := updateAlbumRank_eq_ok target.rank hd hgi
  have hi : i < (getAlbums s).length := by
    by_contra hk
    rw [List.getElem?_eq_none (by omega)] at hgi
    cases hgi
  have hj : j < (getAlbums s).length := by
    by_contra hk
    rw [List.getElem?_eq_none (by omega)] at hgj
    cases hgj
  have hmr : moved.rank = (i : Int) + 1 := getAlbums_rank_at hgi
  have htr : target.rank = (j : Int) + 1 := getAlbums_rank_at hgj
  set albums := getAlbums s with halb
  set L := (listModify (albums.map (shiftRank moved.rank target.rank)) i
    (fun a => { a with rank := target.rank })).map toStored with hL
  have hLlen : L.length = albums.length := by
    rw [hL, List.length_map, listModify_length, List.length_map]
  have hLrank : ∀ k : Nat, (L[k]?).map (fun r => r.rank) =
      if k = i then (if i < albums.length then some target.rank else none)
      else ((albums[k]?).map (fun a => (shiftRank moved.rank target.rank a).rank)) := by
    intro k
    rw [hL, List.getElem?_map, listModify_getElem?]
    by_cases hki : i = k
    · subst hki
      simp only [if_pos rfl, List.getElem?_map, if_pos hi,
        List.getElem?_eq_getElem hi]
      rfl
    · rw [if_neg hki, if_neg (fun hh => hki hh.symm), List.getElem?_map]
      cases albums[k]? <;> rfl
  refine ⟨L, hupd, by rw [hLlen], ?_, ?_, ?_⟩
  · intro k hk
    rw [hLrank k, if_neg hk]
    cases hak : albums[k]? with
    | none => rfl
    | some a =>
      simp only [Option.map_some', Option.some.injEq]
      rw [shiftRank_rank]
  · rw [hLrank i, if_pos rfl, if_pos hi]
  · have hmap : L.map (fun r => r.rank) =
        (List.range albums.length).map (fun k : Nat =>
          if k = i then (j : Int) + 1
          else if i < k ∧ k ≤ j then (k : Int)
          else if j ≤ k ∧ k < i then (k : Int) + 2
          else (k : Int) + 1) := by
      apply List.ext_getElem?
      intro k
      simp only [List.getElem?_map]
      rw [hLrank k]
      by_cases hkN : k < albums.length
      · rw [List.getElem?_eq_getElem (by simpa using hkN :
          k < (List.range albums.length).length)]
        simp only [List.getElem_range, Option.map_some']
        by_cases hki : k = i
        · subst hki
          rw [if_pos rfl, if_pos hkN, if_pos rfl, htr]
        · rw [if_neg hki, if_neg hki]
          rcases hak : albums[k]? with _ | a
          · exact absurd hak (by rw [List.getElem?_eq_getElem hkN]; simp)
          · have hark : a.rank = (k : Int) + 1 := getAlbums_rank_at hak
            simp only [Option.map_some', Option.some.injEq]
            rw [shiftRank_rank, hark, hmr, htr]
            split_ifs <;> omega
      · rw [List.getElem?_eq_none (show (List.range albums.length).length ≤ k by
          simpa using (by omega : albums.length ≤ k))]
        rw [if_neg (show ¬ k = i by omega), List.getElem?_eq_none (by omega)]
        rfl
    rw [hmap]
    exact spliceRanks_perm albums.length i j hi hj

/-- Witness for the C7 theorem: moving the rank-3 album `c` onto the rank-1
album `a` in the concrete collection `demoC1`. -/
theorem updateAlbumRank_splice_witness :
    ∃ (moved target : Album),
      (getAlbums demoC1).findIdx? (fun a => a.id = "c") = some 2 ∧
      (getAlbums demoC1).findIdx? (fun a => a.id = "a") = some 0 ∧
      (getAlbums demoC1)[2]? = some moved ∧
      (getAlbums demoC1)[0]? = some target ∧
      ∃ L : List StoredAlbum,
        updateAlbumRank "c" target.rank demoC1 = .ok (.present L) ∧
        L.length = (getAlbums demoC1).length ∧
        (∀ k : Nat, k ≠ 2 →
          (L[k]?).map (fun r => r.rank) = ((getAlbums demoC1)[k]?).map (fun a =>
            if moved.rank < target.rank ∧ moved.rank < a.rank ∧
                a.rank ≤ target.rank then a.rank - 1
            else if target.rank < moved.rank ∧ target.rank ≤ a.rank ∧
                a.rank < moved.rank then a.rank + 1
            else a.rank)) ∧
        (L[2]?).map (fun r => r.rank) = some target.rank ∧
        List.Perm (L.map (fun r => r.rank))
          ((List.range (getAlbums demoC1).length).map
            (fun k : Nat => (k : Int) + 1)) :=
  ⟨_, _, by rfl, by rfl, by rfl, by rfl,
    updateAlbumRank_splice demoC1 "c" "a" 2 0 _ _ (by rfl) (by rfl)
      (by rfl) (by rfl)⟩

/-! ### Duplicate rejection in `addAlbum` -/

/-- C8: adding a search result whose catalog id (`mbid`) is already carried by
a ranked album always fails with the duplicate error, and the persisted
collection is unchanged by the failed call (nothing is written). -/
theorem addAlbum_duplicate (s : Store) (albumData : AlbumSearchResult)
    (newId : String) (h : ∃ a ∈ getAlbums s, a.mbid = albumData.id) :
    addAlbum albumData newId s = .error .duplicate ∧
      runAdd albumData newId s = s := by
  have hb : (getAlbums s).any (fun album => album.mbid = albumData.id) = true := by
    rcases h with ⟨a, ha, hm⟩
    exact List.any_eq_true.mpr ⟨a, ha, by simpa using hm⟩
  constructor
  · simp only [addAlbum, hb]
    rfl
  · simp only [runAdd, addAlbum, hb]
    rfl

/-- A one-album collection for the duplicate-add witness. -/
def demoC8 : Store := .present [mkStored "a" 0 []]

/-- A search result carrying the same catalog id as the album already in
`demoC8`. -/
def demoSearchC8 : AlbumSearchResult :=
  { id := "mb-a", title := "t", artist := "ar", releaseYear := "2001",
    coverArtUrl := none }

/-- Witness for the C8 theorem at a concrete duplicate add. -/
theorem addAlbum_duplicate_witness :
    (∃ a ∈ getAlbums demoC8, a.mbid = demoSearchC8.id) ∧
      addAlbum demoSearchC8 "album_1" demoC8 = .error .duplicate ∧
      runAdd demoSearchC8 "album_1" demoC8 = demoC8 := by
  have h : ∃ a ∈ getAlbums demoC8, a.mbid = demoSearchC8.id := by decide
  exact ⟨h, addAlbum_duplicate demoC8 demoSearchC8 "album_1" h⟩

/-! ### Pair enumeration and the terminal state -/

/-- The opponents relation of a collection is symmetric: whenever some album
lists another album's id, that album lists the first one's id back. -/
def SymRel (l : List Album) : Prop :=
  ∀ x ∈ l, ∀ y ∈ l, y.id ∈ x.battledWith → x.id ∈ y.battledWith

instance (l : List Album) : Decidable (SymRel l) := by
  unfold SymRel
  infer_instance

theorem possiblePairs_eq_nil_iff (l : List Album) :
    possiblePairs l = [] ↔ l.Pairwise (fun a b => b.id ∈ a.battledWith) := by
  induction l with
  | nil => simp [possiblePairs]
  | cons a rest ih =>
    simp only [possiblePairs, List.append_eq_nil, List.map_eq_nil_iff,
      List.filter_eq_nil_iff, List.pairwise_cons, ih]
    constructor
    · rintro ⟨h1, h2⟩
      refine ⟨fun b hb => ?_, h2⟩
      have := h1 b hb
      simpa using this
    · rintro ⟨h1, h2⟩
      refine ⟨fun b hb => ?_, h2⟩
      simpa using h1 b hb

/-- C6: provided the opponents relation of the collection is symmetric (as it
is in every state the service itself produces), `getNextBattle` returns `none`
exactly when every pair of the collection has a recorded mutual opponent
relation (the round robin is complete); and the battle it returns is by
definition the first pair of the deterministic enumeration
`getPossibleBattles` (outer index ascending, inner index ascending past the
outer). -/
theorem getNextBattle_roundRobin (s : Store) (hsym : SymRel (getAlbums s)) :
    (getNextBattle s = none ↔
      (getAlbums s).Pairwise
        (fun a b => b.id ∈ a.battledWith ∧ a.id ∈ b.battledWith)) ∧
    getNextBattle s = (getPossibleBattles s).head? := by
  refine ⟨?_, rfl⟩
  unfold getNextBattle getPossibleBattles
  rw [List.head?_eq_none_iff, possiblePairs_eq_nil_iff]
  constructor
  · intro h
    refine h.imp_of_mem ?_
    intro a b ha hb hab
    exact ⟨hab, hsym a ha b hb hab⟩
  · intro h
    exact h.imp (fun hh => hh.1)

/-- A two-album collection whose single pair has battled (mutually). -/
def demoC6 : Store := .present [mkStored "a" 3 ["b"], mkStored "b" 1 ["a"]]

/-- Witness for the C6 theorem: a concrete symmetric collection whose round
robin is complete, so no battle is offered. -/
theorem getNextBattle_roundRobin_witness :
    SymRel (getAlbums demoC6) ∧
    ((getNextBattle demoC6 = none ↔
      (getAlbums demoC6).Pairwise
        (fun a b => b.id ∈ a.battledWith ∧ a.id ∈ b.battledWith)) ∧
    getNextBattle demoC6 = (getPossibleBattles demoC6).head?) ∧
    getNextBattle demoC6 = none := by
  have hsym : SymRel (getAlbums demoC6) := by decide
  exact ⟨hsym, getNextBattle_roundRobin demoC6 hsym, by rfl⟩

/-! ### Characterizing `recordBattle` -/

theorem getElem?_some_lt {α : Type} {l : List α} {k : Nat} {x : α}
    (h : l[k]? = some x) : k < l.length := by
  by_contra hk
  rw [List.getElem?_eq_none (by omega)] at h
  cases h

theorem recordBattle_eq_ok_of {s : Store} {a1 a2 : String} {w : Option String}
    {i1 i2 : Nat} {album1 album2 : Album} {scored : List Album}
    {r : BattleResult}
    (hd1 : (getAlbums s).findIdx? (fun a => a.id = a1) = some i1)
    (hd2 : (getAlbums s).findIdx? (fun a => a.id = a2) = some i2)
    (hg1 : (getAlbums s)[i1]? = some album1)
    (hg2 : (getAlbums s)[i2]? = some album2)
    (hnb : album1.battledWith.contains album2.id = false)
    (hsc : battleScored i1 i2 album1 album2 w (getAlbums s) = some (scored, r)) :
    recordBattle a1 a2 w s =
      .ok (r, .present ((assignRanks (sortByPoints scored)).map toStored)) := by
  simp only [recordBattle, hd1, hd2, hg1, hg2, hnb, hsc, Bool.false_eq_true,
    if_false]

theorem recordBattle_eq_already {s : Store} {a1 a2 : String}
    (w : Option String) {i1 i2 : Nat} {album1 album2 : Album}
    (hd1 : (getAlbums s).findIdx? (fun a => a.id = a1) = some i1)
    (hd2 : (getAlbums s).findIdx? (fun a => a.id = a2) = some i2)
    (hg1 : (getAlbums s)[i1]? = some album1)
    (hg2 : (getAlbums s)[i2]? = some album2)
    (hb : album1.battledWith.contains album2.id = true) :
    recordBattle a1 a2 w s = .error .alreadyBattled := by
  simp only [recordBattle, hd1, hd2, hg1, hg2, hb, if_true]

theorem recordBattle_ok_inv {s : Store} {a1 a2 : String} {w : Option String}
    {r : BattleResult} {s₁ : Store}
    (h : recordBattle a1 a2 w s = .ok (r, s₁)) :
    ∃ (i1 i2 : Nat) (album1 album2 : Album) (scored : List Album),
      (getAlbums s).findIdx? (fun a => a.id = a1) = some i1 ∧
      (getAlbums s).findIdx? (fun a => a.id = a2) = some i2 ∧
      (getAlbums s)[i1]? = some album1 ∧
      (getAlbums s)[i2]? = some album2 ∧
      album1.battledWith.contains album2.id = false ∧
      battleScored i1 i2 album1 album2 w (getAlbums s) = some (scored, r) ∧
      s₁ = .present ((assignRanks (sortByPoints scored)).map toStored) := by
  rcases h1 : (getAlbums s).findIdx? (fun a => a.id = a1) with _ | i1
  · simp only [recordBattle, h1] at h
    cases h
  · rcases h2 : (getAlbums s).findIdx? (fun a => a.id = a2) with _ | i2
    · simp only [recordBattle, h1, h2] at h
      cases h
    · rcases h3 : (getAlbums s)[i1]? with _ | album1
      · simp only [recordBattle, h1, h2, h3] at h
        cases h
      · rcases h4 : (getAlbums s)[i2]? with _ | album2
        · simp only [recordBattle, h1, h2, h3, h4] at h
          cases h
        · rcases h5 : album1.battledWith.contains album2.id with _ | _
          · rcases h6 : battleScored i1 i2 album1 album2 w (getAlbums s) with
              _ | ⟨scored, r'⟩
            · simp only [recordBattle, h1, h2, h3, h4, h5, h6,
                Bool.false_eq_true, if_false] at h
              cases h
            · simp only [recordBattle, h1, h2, h3, h4, h5, h6,
                Bool.false_eq_true, if_false, Except.ok.injEq, Prod.mk.injEq] at h
              exact ⟨i1, i2, album1, album2, scored, h1, h2, h3, h4, h5,
                h.1 ▸ h6, h.2.symm⟩
          · simp only [recordBattle, h1, h2, h3, h4, h5, if_true] at h
            cases h

theorem battleScored_inv {i1 i2 : Nat} {album1 album2 : Album}
    {w : Option String} {albums scored : List Album} {r : BattleResult}
    (hsc : battleScored i1 i2 album1 album2 w albums = some (scored, r)) :
    (w = none ∧
      scored = listModify (listModify (pairedList i1 i2 album1 album2 albums)
        i1 (addPoints 1)) i2 (addPoints 1)) ∨
    (w = some album1.id ∧
      scored = listModify (pairedList i1 i2 album1 album2 albums)
        i1 (addPoints 3)) ∨
    (∃ x : String, w = some x ∧ x ≠ album1.id ∧ x = album2.id ∧
      scored = listModify (pairedList i1 i2 album1 album2 albums)
        i2 (addPoints 3)) := by
  rcases w with _ | x
  · left
    simp only [battleScored, Option.some.injEq, Prod.mk.injEq] at hsc
    exact ⟨rfl, hsc.1.symm⟩
  · by_cases hx1 : x = album1.id
    · right; left
      simp only [battleScored] at hsc
      rw [if_pos hx1] at hsc
      simp only [Option.some.injEq, Prod.mk.injEq] at hsc
      exact ⟨by rw [hx1], hsc.1.symm⟩
    · by_cases hx2 : x = album2.id
      · right; right
        simp only [battleScored] at hsc
        rw [if_neg hx1, if_pos hx2] at hsc
        simp only [Option.some.injEq, Prod.mk.injEq] at hsc
        exact ⟨x, rfl, hx1, hx2, hsc.1.symm⟩
      · simp only [battleScored] at hsc
        rw [if_neg hx1, if_neg hx2] at hsc
        cases hsc

theorem battleScored_length {i1 i2 : Nat} {album1 album2 : Album}
    {w : Option String} {albums scored : List Album} {r : BattleResult}
    (hsc : battleScored i1 i2 album1 album2 w albums = some (scored, r)) :
    scored.length = albums.length := by
  rcases battleScored_inv hsc with ⟨_, rfl⟩ | ⟨_, rfl⟩ | ⟨x, _, _, _, rfl⟩ <;>
    simp [pairedList, listModify_length]

/-- The rank-insensitive content of an album: id, points, opponents. -/
def core (a : Album) : String × Int × List String :=
  (a.id, a.points, a.battledWith)

theorem map_core_assignRanksFrom (n : Int) (l : List Album) :
    (assignRanksFrom n l).map core = l.map core := by
  induction l generalizing n with
  | nil => rfl
  | cons a l ih => simp [assignRanksFrom, core, ih]

theorem norm_core_perm (l : List Album) :
    List.Perm ((assignRanks (sortByPoints l)).map core) (l.map core) := by
  rw [show assignRanks (sortByPoints l) = assignRanksFrom 1 (sortByPoints l)
    from rfl, map_core_assignRanksFrom]
  exact (sortByPoints_perm l).map core

theorem norm_core_elem {l : List Album} {x : Album}
    (hx : x ∈ assignRanks (sortByPoints l)) : ∃ y ∈ l, core x = core y := by
  have h1 : core x ∈ (assignRanks (sortByPoints l)).map core :=
    List.mem_map_of_mem core hx
  have h2 := (norm_core_perm l).mem_iff.mp h1
  rcases List.mem_map.mp h2 with ⟨y, hy, he⟩
  exact ⟨y, hy, he.symm⟩

theorem norm_core_elem_rev {l : List Album} {y : Album} (hy : y ∈ l) :
    ∃ x ∈ assignRanks (sortByPoints l), core x = core y := by
  have h1 : core y ∈ (assignRanks (sortByPoints l)).map core :=
    (norm_core_perm l).mem_iff.mpr (List.mem_map_of_mem core hy)
  rcases List.mem_map.mp h1 with ⟨x, hx, he⟩
  exact ⟨x, hx, he⟩

theorem pairedList_map_id (i1 i2 : Nat) (album1 album2 : Album)
    (albums : List Album) :
    (pairedList i1 i2 album1 album2 albums).map (fun a => a.id) =
      albums.map (fun a => a.id) := by
  unfold pairedList
  rw [listModify_map_invariant _ _ (pushOpponent album1.id)
      (fun a => a.id) (fun a => rfl),
    listModify_map_invariant _ _ (pushOpponent album2.id)
      (fun a => a.id) (fun a => rfl)]

theorem pairedList_map_points (i1 i2 : Nat) (album1 album2 : Album)
    (albums : List Album) :
    (pairedList i1 i2 album1 album2 albums).map (fun a => a.points) =
      albums.map (fun a => a.points) := by
  unfold pairedList
  rw [listModify_map_invariant _ _ (pushOpponent album1.id)
      (fun a => a.points) (fun a => rfl),
    listModify_map_invariant _ _ (pushOpponent album2.id)
      (fun a => a.points) (fun a => rfl)]

theorem pairedList_length (i1 i2 : Nat) (album1 album2 : Album)
    (albums : List Album) :
    (pairedList i1 i2 album1 album2 albums).length = albums.length := by
  unfold pairedList
  rw [listModify_length, listModify_length]

theorem battleScored_map_id {i1 i2 : Nat} {album1 album2 : Album}
    {w : Option String} {albums scored : List Album} {r : BattleResult}
    (hsc : battleScored i1 i2 album1 album2 w albums = some (scored, r)) :
    scored.map (fun a => a.id) = albums.map (fun a => a.id) := by
  rcases battleScored_inv hsc with ⟨_, rfl⟩ | ⟨_, rfl⟩ | ⟨x, _, _, _, rfl⟩ <;>
    rw [← pairedList_map_id i1 i2 album1 album2 albums] <;>
    first
    | rw [listModify_map_invariant _ _ (addPoints 1)
          (fun a => a.id) (fun a => rfl),
        listModify_map_invariant _ _ (addPoints 1)
          (fun a => a.id) (fun a => rfl)]
    | rw [listModify_map_invariant _ _ (addPoints 3)
          (fun a => a.id) (fun a => rfl)]

theorem battleScored_sum {i1 i2 : Nat} {album1 album2 : Album}
    {w : Option String} {albums scored : List Album} {r : BattleResult}
    (hsc : battleScored i1 i2 album1 album2 w albums = some (scored, r))
    (hi1 : i1 < albums.length) (hi2 : i2 < albums.length) :
    sumPoints scored = sumPoints albums + (if w = none then 2 else 3) := by
  have hp := pairedList_map_points i1 i2 album1 album2 albums
  have hplen := pairedList_length i1 i2 album1 album2 albums
  rcases battleScored_inv hsc with ⟨hw, rfl⟩ | ⟨hw, rfl⟩ | ⟨x, hw, _, _, rfl⟩
  · subst hw
    unfold sumPoints
    rw [listModify_map_comm _ _ (addPoints 1) (fun a => a.points)
        (fun p => p + 1) (fun a => rfl),
      listModify_sum_add _ _ _ (by
        rw [List.length_map, listModify_length, hplen]; exact hi2),
      listModify_map_comm _ _ (addPoints 1) (fun a => a.points)
        (fun p => p + 1) (fun a => rfl),
      listModify_sum_add _ _ _ (by rw [List.length_map, hplen]; exact hi1),
      hp]
    rw [if_pos (rfl : (none : Option String) = none)]
    omega
  · subst hw
    unfold sumPoints
    rw [listModify_map_comm _ _ (addPoints 3) (fun a => a.points)
        (fun p => p + 3) (fun a => rfl),
      listModify_sum_add _ _ _ (by rw [List.length_map, hplen]; exact hi1),
      hp]
    simp only [reduceCtorEq, if_false]
  · subst hw
    unfold sumPoints
    rw [listModify_map_comm _ _ (addPoints 3) (fun a => a.points)
        (fun p => p + 3) (fun a => rfl),
      listModify_sum_add _ _ _ (by rw [List.length_map, hplen]; exact hi2),
      hp]
    simp only [reduceCtorEq, if_false]

/-- C3: every successful `recordBattle` persists exactly the score-updated
collection re-sorted by points descending — the read-back collection is
sorted, its ranks are densely `1..N`, and for every points value the albums
carrying it appear in the same relative order as in the score-updated list
(stability over the prior order); up to the reassigned ranks it is a
permutation of the score-updated list. -/
theorem recordBattle_resorts (s : Store) (a1 a2 : String) (w : Option String)
    (r : BattleResult) (s₁ : Store)
    (h : recordBattle a1 a2 w s = .ok (r, s₁)) :
    ∃ (i1 i2 : Nat) (album1 album2 : Album) (scored : List Album),
      battleScored i1 i2 album1 album2 w (getAlbums s) = some (scored, r) ∧
      getAlbums s₁ = assignRanks (sortByPoints scored) ∧
      SortedDesc (getAlbums s₁) ∧
      (getAlbums s₁).map (fun a => a.rank) =
        (List.range (getAlbums s).length).map (fun k : Nat => (k : Int) + 1) ∧
      (∀ q : Int, ((getAlbums s₁).filter (fun a => a.points = q)).map noRank =
        (scored.filter (fun a => a.points = q)).map noRank) ∧
      List.Perm ((getAlbums s₁).map noRank) (scored.map noRank) := by
  obtain ⟨i1, i2, album1, album2, scored, hd1, hd2, hg1, hg2, hnb, hsc, hs1⟩ :=
    recordBattle_ok_inv h
  subst hs1
  have hread : getAlbums (.present ((assignRanks (sortByPoints scored)).map
      toStored)) = assignRanks (sortByPoints scored) := getAlbums_normalized _
  refine ⟨i1, i2, album1, album2, scored, hsc, hread, ?_, ?_, ?_, ?_⟩
  · rw [hread]
    exact assignRanksFrom_sorted (sortByPoints_sorted scored)
  · rw [hread, show assignRanks (sortByPoints scored) =
      assignRanksFrom 1 (sortByPoints scored) from rfl,
      assignRanksFrom_map_rank, (sortByPoints_perm scored).length_eq,
      battleScored_length hsc]
    apply List.map_congr_left
    intro k _
    ring
  · intro q
    rw [hread, show assignRanks (sortByPoints scored) =
      assignRanksFrom 1 (sortByPoints scored) from rfl,
      assignRanksFrom_filter_noRank, sortByPoints_filter]
  · rw [hread, show assignRanks (sortByPoints scored) =
      assignRanksFrom 1 (sortByPoints scored) from rfl,
      assignRanksFrom_map_noRank]
    exact (sortByPoints_perm scored).map noRank

/-- Three albums `a`, `b`, `c`, all at score 0, in that stored order. -/
def demoC3 : Store :=
  .present [mkStored "a" 0 [], mkStored "b" 0 [], mkStored "c" 0 []]

/-- The battle result of `recordBattle "a" "b" (winner "a")`. -/
def demoC3Result : BattleResult :=
  { winnerId := some "a", loserId := some "b", isDraw := false,
    winnerPoints := 3, loserPoints := 0 }

/-- Witness for the C3 theorem at the spec's concrete scenario: three albums
`A`, `B`, `C` all at score 0; `recordBattle(A, B, winner = A)` gives `A` 3
points and the read-back order `[A, B, C]` with ranks 1, 2, 3 (`B` keeps its
relative order over `C` in the tie at 0). -/
theorem recordBattle_resorts_witness :
    recordBattle "a" "b" (some "a") demoC3 =
      .ok (demoC3Result, runBattle "a" "b" (some "a") demoC3) ∧
    (getAlbums (runBattle "a" "b" (some "a") demoC3)).map
        (fun a => (a.id, a.points, a.rank)) =
      [("a", 3, 1), ("b", 0, 2), ("c", 0, 3)] ∧
    ∃ (i1 i2 : Nat) (album1 album2 : Album) (scored : List Album),
      battleScored i1 i2 album1 album2 (some "a") (getAlbums demoC3) =
        some (scored, demoC3Result) ∧
      getAlbums (runBattle "a" "b" (some "a") demoC3) =
        assignRanks (sortByPoints scored) ∧
      SortedDesc (getAlbums (runBattle "a" "b" (some "a") demoC3)) ∧
      (getAlbums (runBattle "a" "b" (some "a") demoC3)).map (fun a => a.rank) =
        (List.range (getAlbums demoC3).length).map (fun k : Nat => (k : Int) + 1) ∧
      (∀ q : Int, ((getAlbums (runBattle "a" "b" (some "a") demoC3)).filter
          (fun a => a.points = q)).map noRank =
        (scored.filter (fun a => a.points = q)).map noRank) ∧
      List.Perm ((getAlbums (runBattle "a" "b" (some "a") demoC3)).map noRank)
        (scored.map noRank) :=
  ⟨by rfl, by rfl,
    recordBattle_resorts demoC3 "a" "b" (some "a") demoC3Result
      (runBattle "a" "b" (some "a") demoC3) (by rfl)⟩

/-! ### The scoring arithmetic -/

theorem runBattle_sumPoints (s : Store) (a1 a2 : String) (w : Option String) :
    sumPoints (getAlbums (runBattle a1 a2 w s)) =
      sumPoints (getAlbums s) +
        (match recordBattle a1 a2 w s with
         | .ok _ => if w = none then 2 else 3
         | .error _ => 0) := by
  rcases hrb : recordBattle a1 a2 w s with e | ⟨r, s₁⟩
  · simp [runBattle, hrb]
  · simp only [runBattle, hrb]
    obtain ⟨i1, i2, album1, album2, scored, hd1, hd2, hg1, hg2, hnb, hsc, hs1⟩ :=
      recordBattle_ok_inv hrb
    subst hs1
    rw [getAlbums_normalized]
    have h1 : sumPoints (assignRanks (sortByPoints scored)) = sumPoints scored := by
      unfold sumPoints assignRanks
      rw [assignRanksFrom_map_points]
      exact ((sortByPoints_perm scored).map (fun a => a.points)).sum_eq
    rw [h1, battleScored_sum hsc (getElem?_some_lt hg1) (getElem?_some_lt hg2)]

theorem runBattles_sumPoints (cmds : List BattleCmd) : ∀ s : Store,
    sumPoints (getAlbums (runBattles s cmds)) =
      sumPoints (getAlbums s) + 3 * ((succCounts s cmds).1 : Int) +
        2 * ((succCounts s cmds).2 : Int) := by
  induction cmds with
  | nil =>
    intro s
    simp [runBattles, succCounts]
  | cons c cs ih =>
    intro s
    have hstep := runBattle_sumPoints s c.album1Id c.album2Id c.winnerId
    have hrec : runBattles s (c :: cs) =
        runBattles (runBattle c.album1Id c.album2Id c.winnerId s) cs := rfl
    rw [hrec, ih (runBattle c.album1Id c.album2Id c.winnerId s), hstep]
    rcases hrb : recordBattle c.album1Id c.album2Id c.winnerId s with e | p
    · simp only [succCounts, hrb]
      omega
    · simp only [succCounts, hrb]
      rcases hw : c.winnerId with _ | x
      · simp only [if_pos rfl]
        push_cast
        ring
      · simp only [reduceCtorEq, if_false]
        push_cast
        ring

/-! ### Per-element effect of a battle -/

theorem findIdx_pred {l : List Album} {p : Album → Bool} {i : Nat} {x : Album}
    (hd : l.findIdx? p = some i) (hg : l[i]? = some x) : p x = true := by
  obtain ⟨h, hp, _⟩ := List.findIdx?_eq_some_iff_getElem.mp hd
  rw [List.getElem?_eq_getElem h] at hg
  cases hg
  exact hp

theorem battleScored_elem {i1 i2 : Nat} {album1 album2 : Album}
    {w : Option String} {albums scored : List Album} {r : BattleResult}
    (hsc : battleScored i1 i2 album1 album2 w albums = some (scored, r))
    (hii : i1 ≠ i2)
    (hg1 : albums[i1]? = some album1) (hg2 : albums[i2]? = some album2) :
    (scored[i1]?).map core = some (album1.id,
      album1.points + (if w = none then 1 else
        if w = some album1.id then 3 else 0),
      album1.battledWith ++ [album2.id]) ∧
    (scored[i2]?).map core = some (album2.id,
      album2.points + (if w = none then 1 else
        if w = some album1.id then 0 else 3),
      album2.battledWith ++ [album1.id]) ∧
    (∀ k : Nat, k ≠ i1 → k ≠ i2 → scored[k]? = albums[k]?) := by
  have hii' : ¬ i2 = i1 := fun hh => hii hh.symm
  rcases battleScored_inv hsc with ⟨hw, rfl⟩ | ⟨hw, rfl⟩ | ⟨x, hw, hx1, hx2, rfl⟩
  · subst hw
    refine ⟨?_, ?_, ?_⟩
    · simp [listModify_getElem?, pairedList, hii, hii', hg1, core,
        addPoints, pushOpponent]
    · simp [listModify_getElem?, pairedList, hii, hii', hg2, core,
        addPoints, pushOpponent]
    · intro k hk1 hk2
      have hk1' : ¬ i1 = k := fun hh => hk1 hh.symm
      have hk2' : ¬ i2 = k := fun hh => hk2 hh.symm
      simp [listModify_getElem?, pairedList, hk1', hk2']
  · subst hw
    refine ⟨?_, ?_, ?_⟩
    · simp [listModify_getElem?, pairedList, hii, hii', hg1, core,
        addPoints, pushOpponent]
    · simp [listModify_getElem?, pairedList, hii, hii', hg2, core,
        addPoints, pushOpponent]
    · intro k hk1 hk2
      have hk1' : ¬ i1 = k := fun hh => hk1 hh.symm
      have hk2' : ¬ i2 = k := fun hh => hk2 hh.symm
      simp [listModify_getElem?, pairedList, hk1', hk2']
  · subst hw
    refine ⟨?_, ?_, ?_⟩
    · simp [listModify_getElem?, pairedList, hii, hii', hg1, core,
        addPoints, pushOpponent, hx1]
    · simp [listModify_getElem?, pairedList, hii, hii', hg2, core,
        addPoints, pushOpponent, hx1]
    · intro k hk1 hk2
      have hk1' : ¬ i1 = k := fun hh => hk1 hh.symm
      have hk2' : ¬ i2 = k := fun hh => hk2 hh.symm
      simp [listModify_getElem?, pairedList, hk1', hk2']

/-- The observable effect of a successful battle between two distinct albums
(in a collection with unique ids) on the read-back collection: the two
participants' opponent lists are extended with each other's id and their
points are awarded per the scoring policy; every other album is carried over
unchanged (up to its reassigned rank); and both participants remain
present. -/
theorem battle_updates_members {s : Store} {a1 a2 : String} {w : Option String}
    {r : BattleResult} {s₁ : Store} (hne : a1 ≠ a2)
    (hnd : ((getAlbums s).map (fun a => a.id)).Nodup)
    (h : recordBattle a1 a2 w s = .ok (r, s₁)) :
    ∃ album1 album2 : Album, album1 ∈ getAlbums s ∧ album2 ∈ getAlbums s ∧
      album1.id = a1 ∧ album2.id = a2 ∧
      (∀ x ∈ getAlbums s₁, x.id = a1 →
        x.points = album1.points +
          (if w = none then 1 else if w = some a1 then 3 else 0) ∧
        x.battledWith = album1.battledWith ++ [a2]) ∧
      (∀ x ∈ getAlbums s₁, x.id = a2 →
        x.points = album2.points +
          (if w = none then 1 else if w = some a1 then 0 else 3) ∧
        x.battledWith = album2.battledWith ++ [a1]) ∧
      (∀ x ∈ getAlbums s₁, x.id ≠ a1 → x.id ≠ a2 →
        ∃ y ∈ getAlbums s, core x = core y) ∧
      (∃ x ∈ getAlbums s₁, x.id = a1) ∧ (∃ x ∈ getAlbums s₁, x.id = a2) := by
  obtain ⟨i1, i2, album1, album2, scored, hd1, hd2, hg1, hg2, hnb, hsc, hs1⟩ :=
    recordBattle_ok_inv h
  subst hs1
  have hid1 : album1.id = a1 := by simpa using findIdx_pred hd1 hg1
  have hid2 : album2.id = a2 := by simpa using findIdx_pred hd2 hg2
  have hii : i1 ≠ i2 := by
    intro hh
    subst hh
    rw [hg1] at hg2
    cases hg2
    exact hne (hid1 ▸ hid2)
  obtain ⟨he1, he2, hoth⟩ := battleScored_elem hsc hii hg1 hg2
  have hread : getAlbums (.present ((assignRanks (sortByPoints scored)).map
      toStored)) = assignRanks (sortByPoints scored) := getAlbums_normalized _
  rw [hread]
  -- index facts about `scored` collapsed to membership facts
  have hsc1 : ∃ z : Album, scored[i1]? = some z ∧ core z = (album1.id,
      album1.points + (if w = none then 1 else
        if w = some album1.id then 3 else 0),
      album1.battledWith ++ [album2.id]) := by
    rcases hz : scored[i1]? with _ | z
    · rw [hz] at he1
      cases he1
    · rw [hz] at he1
      exact ⟨z, rfl, by simpa using he1⟩
  have hsc2 : ∃ z : Album, scored[i2]? = some z ∧ core z = (album2.id,
      album2.points + (if w = none then 1 else
        if w = some album1.id then 0 else 3),
      album2.battledWith ++ [album1.id]) := by
    rcases hz : scored[i2]? with _ | z
    · rw [hz] at he2
      cases he2
    · rw [hz] at he2
      exact ⟨z, rfl, by simpa using he2⟩
  obtain ⟨z1, hz1, hcz1⟩ := hsc1
  obtain ⟨z2, hz2, hcz2⟩ := hsc2
  -- the unique element of `scored` with a participant's id is the updated one
  have huniq : ∀ y ∈ scored, (y.id = a1 → core y = core z1) ∧
      (y.id = a2 → core y = core z2) := by
    intro y hy
    obtain ⟨k, hk⟩ := List.mem_iff_getElem?.mp hy
    constructor
    · intro hyid
      by_cases hk1 : k = i1
      · subst hk1
        rw [hk] at hz1
        obtain rfl : y = z1 := Option.some.inj hz1
        rfl
      · exfalso
        by_cases hk2 : k = i2
        · subst hk2
          rw [hk] at hz2
          obtain rfl : y = z2 := Option.some.inj hz2
          have : y.id = album2.id := by
            have := congrArg (fun p => p.1) hcz2
            simpa [core] using this
          exact hne (hyid ▸ (this.trans hid2) : a1 = a2)
        · have hsame := hoth k hk1 hk2
          rw [hk] at hsame
          -- y is an untouched album with the id a1: contradicts uniqueness
          have hmapk : ((getAlbums s).map (fun a => a.id))[k]? = some a1 := by
            rw [List.getElem?_map, ← hsame]
            simp [hyid]
          have hmapi1 : ((getAlbums s).map (fun a => a.id))[i1]? = some a1 := by
            rw [List.getElem?_map, hg1]
            simp [hid1]
          have hklen : k < ((getAlbums s).map (fun a => a.id)).length := by
            rw [List.length_map]
            exact getElem?_some_lt hsame.symm
          exact hk1 (List.getElem?_inj hklen hnd (hmapk.trans hmapi1.symm))
    · intro hyid
      by_cases hk2 : k = i2
      · subst hk2
        rw [hk] at hz2
        obtain rfl : y = z2 := Option.some.inj hz2
        rfl
      · exfalso
        by_cases hk1 : k = i1
        · subst hk1
          rw [hk] at hz1
          obtain rfl : y = z1 := Option.some.inj hz1
          have : y.id = album1.id := by
            have := congrArg (fun p => p.1) hcz1
            simpa [core] using this
          exact hne ((this.trans hid1) ▸ hyid : a1 = a2)
        · have hsame := hoth k hk1 hk2
          rw [hk] at hsame
          have hmapk : ((getAlbums s).map (fun a => a.id))[k]? = some a2 := by
            rw [List.getElem?_map, ← hsame]
            simp [hyid]
          have hmapi2 : ((getAlbums s).map (fun a => a.id))[i2]? = some a2 := by
            rw [List.getElem?_map, hg2]
            simp [hid2]
          have hklen : k < ((getAlbums s).map (fun a => a.id)).length := by
            rw [List.length_map]
            exact getElem?_some_lt hsame.symm
          exact hk2 (List.getElem?_inj hklen hnd (hmapk.trans hmapi2.symm))
  refine ⟨album1, album2, List.getElem?_mem hg1, List.getElem?_mem hg2,
    hid1, hid2, ?_, ?_, ?_, ?_, ?_⟩
  · intro x hx hxid
    obtain ⟨y, hy, hcy⟩ := norm_core_elem hx
    have hyid : y.id = a1 := by
      have := congrArg (fun p => p.1) hcy
      simp only [core] at this
      exact this ▸ hxid
    have := ((huniq y hy).1 hyid).symm.trans hcy.symm
    rw [hcz1] at this
    have hpx := congrArg (fun p => p.2.1) this
    have hbx := congrArg (fun p => p.2.2) this
    simp only [core] at hpx hbx
    rw [hid1, hid2] at *
    exact ⟨by rw [← hpx], by rw [← hbx]⟩
  · intro x hx hxid
    obtain ⟨y, hy, hcy⟩ := norm_core_elem hx
    have hyid : y.id = a2 := by
      have := congrArg (fun p => p.1) hcy
      simp only [core] at this
      exact this ▸ hxid
    have := ((huniq y hy).2 hyid).symm.trans hcy.symm
    rw [hcz2] at this
    have hpx := congrArg (fun p => p.2.1) this
    have hbx := congrArg (fun p => p.2.2) this
    simp only [core] at hpx hbx
    rw [hid1, hid2] at *
    exact ⟨by rw [← hpx], by rw [← hbx]⟩
  · intro x hx hx1 hx2
    obtain ⟨y, hy, hcy⟩ := norm_core_elem hx
    obtain ⟨k, hk⟩ := List.mem_iff_getElem?.mp hy
    have hyid1 : y.id ≠ a1 := by
      have := congrArg (fun p => p.1) hcy
      simp only [core] at this
      exact this ▸ hx1
    have hyid2 : y.id ≠ a2 := by
      have := congrArg (fun p => p.1) hcy
      simp only [core] at this
      exact this ▸ hx2
    have hk1 : k ≠ i1 := by
      intro hh
      subst hh
      rw [hk] at hz1
      obtain rfl : y = z1 := Option.some.inj hz1
      have : y.id = album1.id := by
        have := congrArg (fun p => p.1) hcz1
        simpa [core] using this
      exact hyid1 (this.trans hid1)
    have hk2 : k ≠ i2 := by
      intro hh
      subst hh
      rw [hk] at hz2
      obtain rfl : y = z2 := Option.some.inj hz2
      have : y.id = album2.id := by
        have := congrArg (fun p => p.1) hcz2
        simpa [core] using this
      exact hyid2 (this.trans hid2)
    have hsame := hoth k hk1 hk2
    rw [hk] at hsame
    exact ⟨y, List.getElem?_mem hsame.symm, hcy⟩
  · obtain ⟨x, hx, hcx⟩ := norm_core_elem_rev (List.getElem?_mem hz1)
    refine ⟨x, hx, ?_⟩
    have := congrArg (fun p => p.1) (hcx.trans hcz1)
    simp only [core] at this
    exact this.trans hid1
  · obtain ⟨x, hx, hcx⟩ := norm_core_elem_rev (List.getElem?_mem hz2)
    refine ⟨x, hx, ?_⟩
    have := congrArg (fun p => p.1) (hcx.trans hcz2)
    simp only [core] at this
    exact this.trans hid2

/-- C4: the scoring policy.  A successful draw gives each of the two distinct
participants exactly +1 point; a successful decisive battle gives the winner
+3 and the loser +0; and over any sequence of `recordBattle` calls starting
from all-zero scores the total of all scores is exactly `3K + 2D`, where `K`
counts the successful decisive calls and `D` the successful draws. -/
theorem recordBattle_scoring_spec :
    (∀ (s : Store) (cmds : List BattleCmd),
      (∀ a ∈ getAlbums s, a.points = 0) →
      sumPoints (getAlbums (runBattles s cmds)) =
        3 * ((succCounts s cmds).1 : Int) + 2 * ((succCounts s cmds).2 : Int)) ∧
    (∀ (s : Store) (a1 a2 : String) (r : BattleResult) (s₁ : Store),
      a1 ≠ a2 → ((getAlbums s).map (fun a => a.id)).Nodup →
      recordBattle a1 a2 none s = .ok (r, s₁) →
      (∀ x ∈ getAlbums s₁, x.id = a1 →
        ∃ y ∈ getAlbums s, y.id = a1 ∧ x.points = y.points + 1) ∧
      (∀ x ∈ getAlbums s₁, x.id = a2 →
        ∃ y ∈ getAlbums s, y.id = a2 ∧ x.points = y.points + 1)) ∧
    (∀ (s : Store) (a1 a2 : String) (r : BattleResult) (s₁ : Store),
      a1 ≠ a2 → ((getAlbums s).map (fun a => a.id)).Nodup →
      recordBattle a1 a2 (some a1) s = .ok (r, s₁) →
      (∀ x ∈ getAlbums s₁, x.id = a1 →
        ∃ y ∈ getAlbums s, y.id = a1 ∧ x.points = y.points + 3) ∧
      (∀ x ∈ getAlbums s₁, x.id = a2 →
        ∃ y ∈ getAlbums s, y.id = a2 ∧ x.points = y.points)) := by
  refine ⟨?_, ?_, ?_⟩
  · intro s cmds hz
    have h0 : sumPoints (getAlbums s) = 0 := by
      apply List.sum_eq_zero
      intro p hp
      rcases List.mem_map.mp hp with ⟨a, ha, rfl⟩
      exact hz a ha
    rw [runBattles_sumPoints cmds s, h0]
    ring
  · intro s a1 a2 r s₁ hne hnd h
    obtain ⟨album1, album2, hm1, hm2, hid1, hid2, hp1, hp2, _, _, _⟩ :=
      battle_updates_members hne hnd h
    constructor
    · intro x hx hxid
      obtain ⟨hpts, _⟩ := hp1 x hx hxid
      refine ⟨album1, hm1, hid1, ?_⟩
      rw [hpts, if_pos rfl]
    · intro x hx hxid
      obtain ⟨hpts, _⟩ := hp2 x hx hxid
      refine ⟨album2, hm2, hid2, ?_⟩
      rw [hpts, if_pos rfl]
  · intro s a1 a2 r s₁ hne hnd h
    obtain ⟨album1, album2, hm1, hm2, hid1, hid2, hp1, hp2, _, _, _⟩ :=
      battle_updates_members hne hnd h
    constructor
    · intro x hx hxid
      obtain ⟨hpts, _⟩ := hp1 x hx hxid
      refine ⟨album1, hm1, hid1, ?_⟩
      rw [hpts]
      simp
    · intro x hx hxid
      obtain ⟨hpts, _⟩ := hp2 x hx hxid
      refine ⟨album2, hm2, hid2, ?_⟩
      rw [hpts]
      simp

/-- Three zero-score albums for the scoring witness. -/
def demoC4 : Store :=
  .present [mkStored "a" 0 [], mkStored "b" 0 [], mkStored "c" 0 []]

/-- A draw between `a` and `b`, then a decisive win of `a` over `c`. -/
def demoCmds : List BattleCmd :=
  [{ album1Id := "a", album2Id := "b", winnerId := none },
   { album1Id := "a", album2Id := "c", winnerId := some "a" }]

/-- The result of the draw between `a` and `b`. -/
def demoDrawResult : BattleResult :=
  { winnerId := none, loserId := none, isDraw := true,
    winnerPoints := 1, loserPoints := 1 }

/-- Witness for the C4 theorem: one successful draw and one successful
decisive battle starting from all-zero scores give total score
`3 · 1 + 2 · 1 = 5`, and the draw gives each participant exactly +1. -/
theorem recordBattle_scoring_spec_witness :
    ((∀ a ∈ getAlbums demoC4, a.points = 0) ∧
      succCounts demoC4 demoCmds = (1, 1) ∧
      sumPoints (getAlbums (runBattles demoC4 demoCmds)) =
        3 * ((succCounts demoC4 demoCmds).1 : Int) +
          2 * ((succCounts demoC4 demoCmds).2 : Int) ∧
      sumPoints (getAlbums (runBattles demoC4 demoCmds)) = 5) ∧
    ("a" ≠ "b" ∧ ((getAlbums demoC4).map (fun a => a.id)).Nodup ∧
      recordBattle "a" "b" none demoC4 =
        .ok (demoDrawResult, runBattle "a" "b" none demoC4) ∧
      (∀ x ∈ getAlbums (runBattle "a" "b" none demoC4), x.id = "a" →
        ∃ y ∈ getAlbums demoC4, y.id = "a" ∧ x.points = y.points + 1) ∧
      (∀ x ∈ getAlbums (runBattle "a" "b" none demoC4), x.id = "b" →
        ∃ y ∈ getAlbums demoC4, y.id = "b" ∧ x.points = y.points + 1)) := by
  have hz : ∀ a ∈ getAlbums demoC4, a.points = 0 := by decide
  have hne : "a" ≠ "b" := by decide
  have hnd : ((getAlbums demoC4).map (fun a => a.id)).Nodup := by decide
  have hok : recordBattle "a" "b" none demoC4 =
      .ok (demoDrawResult, runBattle "a" "b" none demoC4) := by rfl
  have h2 := recordBattle_scoring_spec.2.1 demoC4 "a" "b" demoDrawResult
    (runBattle "a" "b" none demoC4) hne hnd hok
  exact ⟨⟨hz, by rfl, recordBattle_scoring_spec.1 demoC4 demoCmds hz, by rfl⟩,
    hne, hnd, hok, h2.1, h2.2⟩

/-! ### At-most-once pairing -/

theorem findIdx?_elem {l : List Album} {p : Album → Bool} {i : Nat}
    (hd : l.findIdx? p = some i) : ∃ x, l[i]? = some x ∧ p x = true := by
  obtain ⟨h, hp, _⟩ := List.findIdx?_eq_some_iff_getElem.mp hd
  exact ⟨_, List.getElem?_eq_getElem h, hp⟩

theorem contains_of_mem {x : String} {l : List String} (h : x ∈ l) :
    l.contains x = true := by
  induction l with
  | nil => cases h
  | cons b t ih =>
    rcases List.mem_cons.mp h with rfl | h
    · simp [List.contains_cons]
    · simp [List.contains_cons, h]

/-- C5: once two distinct albums (in a collection with unique ids) have
successfully battled, a second `recordBattle` on the same unordered pair — in
either argument order and with any winner argument — fails with the
already-battled error, and the persisted collection is unchanged by the
failed call. -/
theorem recordBattle_pair_once (s : Store) (a1 a2 : String) (w : Option String)
    (r : BattleResult) (s₁ : Store) (hne : a1 ≠ a2)
    (hnd : ((getAlbums s).map (fun a => a.id)).Nodup)
    (h : recordBattle a1 a2 w s = .ok (r, s₁)) (w' : Option String) :
    recordBattle a1 a2 w' s₁ = .error .alreadyBattled ∧
    recordBattle a2 a1 w' s₁ = .error .alreadyBattled ∧
    runBattle a1 a2 w' s₁ = s₁ ∧ runBattle a2 a1 w' s₁ = s₁ := by
  obtain ⟨album1, album2, hm1, hm2, hid1, hid2, hp1, hp2, hoth, hex1, hex2⟩ :=
    battle_updates_members hne hnd h
  obtain ⟨x1, hx1m, hx1id⟩ := hex1
  obtain ⟨x2, hx2m, hx2id⟩ := hex2
  have hfd1 : (getAlbums s₁).findIdx? (fun a => a.id = a1) =
      some ((getAlbums s₁).findIdx (fun a => a.id = a1)) :=
    List.findIdx?_eq_some_of_exists ⟨x1, hx1m, by simp [hx1id]⟩
  have hfd2 : (getAlbums s₁).findIdx? (fun a => a.id = a2) =
      some ((getAlbums s₁).findIdx (fun a => a.id = a2)) :=
    List.findIdx?_eq_some_of_exists ⟨x2, hx2m, by simp [hx2id]⟩
  obtain ⟨e1, hg1, hpe1⟩ := findIdx?_elem hfd1
  obtain ⟨e2, hg2, hpe2⟩ := findIdx?_elem hfd2
  have he1id : e1.id = a1 := by simpa using hpe1
  have he2id : e2.id = a2 := by simpa using hpe2
  obtain ⟨_, hbw1⟩ := hp1 e1 (List.getElem?_mem hg1) he1id
  obtain ⟨_, hbw2⟩ := hp2 e2 (List.getElem?_mem hg2) he2id
  have hc1 : e1.battledWith.contains e2.id = true := by
    rw [he2id, hbw1]
    exact contains_of_mem (by simp)
  have hc2 : e2.battledWith.contains e1.id = true := by
    rw [he1id, hbw2]
    exact contains_of_mem (by simp)
  have herr1 := recordBattle_eq_already w' hfd1 hfd2 hg1 hg2 hc1
  have herr2 := recordBattle_eq_already w' hfd2 hfd1 hg2 hg1 hc2
  exact ⟨herr1, herr2, by simp [runBattle, herr1], by simp [runBattle, herr2]⟩

/-- Two zero-score albums for the at-most-once witness. -/
def demoC5 : Store := .present [mkStored "a" 0 [], mkStored "b" 0 []]

/-- Witness for the C5 theorem: after a concrete successful draw between `a`
and `b`, both argument orders of a rematch fail and leave the store as it
was. -/
theorem recordBattle_pair_once_witness :
    ("a" : String) ≠ "b" ∧
    ((getAlbums demoC5).map (fun a => a.id)).Nodup ∧
    recordBattle "a" "b" none demoC5 =
      .ok (demoDrawResult, runBattle "a" "b" none demoC5) ∧
    (recordBattle "a" "b" (some "a") (runBattle "a" "b" none demoC5) =
        .error .alreadyBattled ∧
      recordBattle "b" "a" (some "a") (runBattle "a" "b" none demoC5) =
        .error .alreadyBattled ∧
      runBattle "a" "b" (some "a") (runBattle "a" "b" none demoC5) =
        runBattle "a" "b" none demoC5 ∧
      runBattle "b" "a" (some "a") (runBattle "a" "b" none demoC5) =
        runBattle "a" "b" none demoC5) := by
  have hne : ("a" : String) ≠ "b" := by decide
  have hnd : ((getAlbums demoC5).map (fun a => a.id)).Nodup := by decide
  have hok : recordBattle "a" "b" none demoC5 =
      .ok (demoDrawResult, runBattle "a" "b" none demoC5) := by rfl
  exact ⟨hne, hnd, hok,
    recordBattle_pair_once demoC5 "a" "b" none demoDrawResult
      (runBattle "a" "b" none demoC5) hne hnd hok (some "a")⟩

/-! ### The opponents-relation invariant -/

/-- No album lists its own id among its opponents. -/
def IrreflRel (l : List Album) : Prop := ∀ x ∈ l, x.id ∉ x.battledWith

/-- Ids are unique across the collection. -/
def UniqueIds (l : List Album) : Prop := (l.map (fun a => a.id)).Nodup

/-- The data-model invariant over the opponents relation: unique ids,
symmetric, irreflexive. -/
def OppInv (l : List Album) : Prop := UniqueIds l ∧ SymRel l ∧ IrreflRel l

instance (l : List Album) : Decidable (IrreflRel l) := by
  unfold IrreflRel
  infer_instance

instance (l : List Album) : Decidable (UniqueIds l) := by
  unfold UniqueIds
  infer_instance

instance (l : List Album) : Decidable (OppInv l) := by
  unfold OppInv
  exact instDecidableAnd

theorem core_fields {a b : Album} (h : core a = core b) :
    a.id = b.id ∧ a.points = b.points ∧ a.battledWith = b.battledWith := by
  simp only [core, Prod.mk.injEq] at h
  exact h

theorem map_id_of_map_core_perm {l l' : List Album}
    (h : List.Perm (l.map core) (l'.map core)) :
    List.Perm (l.map (fun a => a.id)) (l'.map (fun a => a.id)) := by
  have := h.map (fun p => p.1)
  simpa [List.map_map, Function.comp, core] using this

theorem core_elem_of_core_perm {l l' : List Album} {x : Album}
    (h : List.Perm (l.map core) (l'.map core)) (hx : x ∈ l) :
    ∃ y ∈ l', core x = core y := by
  have h1 : core x ∈ l'.map core :=
    h.mem_iff.mp (List.mem_map_of_mem core hx)
  rcases List.mem_map.mp h1 with ⟨y, hy, he⟩
  exact ⟨y, hy, he.symm⟩

theorem oppInv_of_core_perm {l l' : List Album}
    (hperm : List.Perm (l.map core) (l'.map core)) (h : OppInv l') : OppInv l := by
  obtain ⟨hnd, hsym, hirr⟩ := h
  refine ⟨?_, ?_, ?_⟩
  · exact ((map_id_of_map_core_perm hperm).nodup_iff).mpr hnd
  · intro x hx y hy hxy
    obtain ⟨x', hx', hcx⟩ := core_elem_of_core_perm hperm hx
    obtain ⟨y', hy', hcy⟩ := core_elem_of_core_perm hperm hy
    obtain ⟨hxi, _, hxb⟩ := core_fields hcx
    obtain ⟨hyi, _, hyb⟩ := core_fields hcy
    rw [hxi, hyb]
    exact hsym x' hx' y' hy' (by rw [← hyi, ← hxb]; exact hxy)
  · intro x hx
    obtain ⟨x', hx', hcx⟩ := core_elem_of_core_perm hperm hx
    obtain ⟨hxi, _, hxb⟩ := core_fields hcx
    rw [hxi, hxb]
    exact hirr x' hx'

theorem oppInv_sublist {l l' : List Album} (hs : l'.Sublist l)
    (h : OppInv l) : OppInv l' := by
  obtain ⟨hnd, hsym, hirr⟩ := h
  refine ⟨?_, ?_, ?_⟩
  · show (l'.map (fun a => a.id)).Nodup
    have hnd' : (l.map (fun a => a.id)).Nodup := hnd
    exact List.Nodup.sublist (hs.map (fun a => a.id)) hnd'
  · intro x hx y hy hxy
    exact hsym x (hs.subset hx) y (hs.subset hy) hxy
  · intro x hx
    exact hirr x (hs.subset hx)

theorem oppInv_append_fresh {l : List Album} {b : Album} {newId : String}
    (h : OppInv l)
    (hfresh : ∀ x ∈ l, newId ≠ x.id ∧ newId ∉ x.battledWith)
    (hbid : b.id = newId) (hbw : b.battledWith = []) : OppInv (l ++ [b]) := by
  obtain ⟨hnd, hsym, hirr⟩ := h
  refine ⟨?_, ?_, ?_⟩
  · rw [UniqueIds, List.map_append]
    rw [List.nodup_append]
    refine ⟨hnd, by simp, ?_⟩
    intro p hp
    simp only [List.map_cons, List.map_nil, List.mem_cons, List.not_mem_nil,
      or_false]
    intro hpb
    rcases List.mem_map.mp hp with ⟨x, hx, rfl⟩
    exact (hfresh x hx).1 ((hpb.trans hbid).symm)
  · intro x hx y hy hxy
    rcases List.mem_append.mp hx with hx' | hx'
    · rcases List.mem_append.mp hy with hy' | hy'
      · exact hsym x hx' y hy' hxy
      · have hyb : y = b := by simpa using hy'
        subst hyb
        rw [hbid] at hxy
        exact absurd hxy (hfresh x hx').2
    · have hxb : x = b := by simpa using hx'
      subst hxb
      rw [hbw] at hxy
      exact absurd hxy (by simp)
  · intro x hx
    rcases List.mem_append.mp hx with hx' | hx'
    · exact hirr x hx'
    · have hxb : x = b := by simpa using hx'
      subst hxb
      rw [hbw]
      simp

theorem addAlbum_ok_inv {s : Store} {albumData : AlbumSearchResult}
    {newId : String} {na : Album} {s₁ : Store}
    (h : addAlbum albumData newId s = .ok (na, s₁)) :
    na.id = newId ∧ na.battledWith = [] ∧ na.points = 0 ∧
      s₁ = .present ((getAlbums s ++ [na]).map toStored) := by
  rcases hb : (getAlbums s).any (fun album => album.mbid = albumData.id) with
    _ | _
  · simp only [addAlbum, hb, Bool.false_eq_true, if_false, Except.ok.injEq,
      Prod.mk.injEq] at h
    obtain ⟨hna, hs⟩ := h
    subst hna
    exact ⟨rfl, rfl, rfl, hs.symm⟩
  · simp only [addAlbum, hb, if_true] at h
    cases h

theorem deleteAlbum_ok_inv {s : Store} {albumId : String} {s₁ : Store}
    (h : deleteAlbum albumId s = .ok s₁) :
    ∃ (i : Nat) (deleted : Album),
      (getAlbums s).findIdx? (fun a => a.id = albumId) = some i ∧
      (getAlbums s)[i]? = some deleted ∧
      s₁ = .present ((((getAlbums s).eraseIdx i).map (fun album =>
        if deleted.rank < album.rank then { album with rank := album.rank - 1 }
        else album)).map toStored) := by
  rcases h1 : (getAlbums s).findIdx? (fun a => a.id = albumId) with _ | i
  · simp only [deleteAlbum, h1] at h
    cases h
  · rcases h2 : (getAlbums s)[i]? with _ | deleted
    · simp only [deleteAlbum, h1, h2] at h
      cases h
    · simp only [deleteAlbum, h1, h2, Except.ok.injEq] at h
      exact ⟨i, deleted, h1, h2, h.symm⟩

theorem reorderAlbums_ok_inv {s : Store} {draggedId targetId : String}
    {ret : List Album} {s₁ : Store}
    (h : reorderAlbums draggedId targetId s = .ok (ret, s₁)) :
    ∃ newRank : Int, updateAlbumRank draggedId newRank s = .ok s₁ := by
  rcases h1 : (getAlbums s).findIdx? (fun a => a.id = draggedId) with _ | i
  · simp only [reorderAlbums, h1] at h
    cases h
  · rcases h2 : (getAlbums s).findIdx? (fun a => a.id = targetId) with _ | j
    · simp only [reorderAlbums, h1, h2] at h
      cases h
    · rcases h3 : (getAlbums s)[j]? with _ | target
      · simp only [reorderAlbums, h1, h2, h3] at h
        cases h
      · rcases h4 : updateAlbumRank draggedId target.rank s with e | s₂
        · simp only [reorderAlbums, h1, h2, h3, h4] at h
          cases h
        · simp only [reorderAlbums, h1, h2, h3, h4, Except.ok.injEq,
            Prod.mk.injEq] at h
          exact ⟨target.rank, h.2 ▸ h4⟩

theorem runUpdateRank_read (s : Store) (albumId : String) (newRank : Int) :
    getAlbums (runUpdateRank albumId newRank s) = getAlbums s := by
  rcases hu : updateAlbumRank albumId newRank s with e | s₁
  · simp [runUpdateRank, hu]
  · simp only [runUpdateRank, hu]
    exact updateAlbumRank_read hu

theorem runReorder_read (s : Store) (draggedId targetId : String) :
    getAlbums (runReorder draggedId targetId s) = getAlbums s := by
  rcases hr : reorderAlbums draggedId targetId s with e | ⟨ret, s₁⟩
  · simp [runReorder, hr]
  · simp only [runReorder, hr]
    obtain ⟨newRank, hu⟩ := reorderAlbums_ok_inv hr
    exact updateAlbumRank_read hu

theorem oppInv_battle {s : Store} {a1 a2 : String} {w : Option String}
    {r : BattleResult} {s₁ : Store} (hne : a1 ≠ a2)
    (hinv : OppInv (getAlbums s)) (h : recordBattle a1 a2 w s = .ok (r, s₁)) :
    OppInv (getAlbums s₁) := by
  obtain ⟨hnd, hsym, hirr⟩ := hinv
  obtain ⟨album1, album2, hm1, hm2, hid1, hid2, hp1, hp2, hoth, _, _⟩ :=
    battle_updates_members hne hnd h
  have hbw : ∀ x ∈ getAlbums s₁,
      (x.id = a1 → x.battledWith = album1.battledWith ++ [a2]) ∧
      (x.id = a2 → x.battledWith = album2.battledWith ++ [a1]) ∧
      (x.id ≠ a1 → x.id ≠ a2 → ∃ y ∈ getAlbums s,
        x.id = y.id ∧ x.battledWith = y.battledWith) := by
    intro x hx
    refine ⟨fun hxid => (hp1 x hx hxid).2, fun hxid => (hp2 x hx hxid).2, ?_⟩
    intro hx1 hx2
    obtain ⟨y, hy, hcy⟩ := hoth x hx hx1 hx2
    obtain ⟨hyi, _, hyb⟩ := core_fields hcy
    exact ⟨y, hy, hyi, hyb⟩
  refine ⟨?_, ?_, ?_⟩
  · -- unique ids
    obtain ⟨i1, i2, b1, b2, scored, hd1, hd2, hg1, hg2, hnb, hsc, hs1⟩ :=
      recordBattle_ok_inv h
    subst hs1
    rw [getAlbums_normalized]
    show ((assignRanks (sortByPoints scored)).map (fun a => a.id)).Nodup
    have hperm := map_id_of_map_core_perm (norm_core_perm scored)
    rw [battleScored_map_id hsc] at hperm
    exact hperm.nodup_iff.mpr hnd
  · -- symmetric
    intro x hx y hy hxy
    by_cases hxa1 : x.id = a1
    · rw [(hbw x hx).1 hxa1] at hxy
      rcases List.mem_append.mp hxy with hxy | hxy
      · by_cases hya2 : y.id = a2
        · rw [(hbw y hy).2.1 hya2, hxa1]
          simp
        · have hya1 : y.id ≠ a1 := by
            intro hh
            rw [← hid1] at hh
            exact hirr album1 hm1 (hh ▸ hxy)
          obtain ⟨y₀, hy₀, hyi, hyb⟩ := (hbw y hy).2.2 hya1 hya2
          rw [hyb, hxa1, ← hid1]
          exact hsym album1 hm1 y₀ hy₀ (by rw [← hyi]; exact hxy)
      · have hya2 : y.id = a2 := by simpa using hxy
        rw [(hbw y hy).2.1 hya2, hxa1]
        simp
    · by_cases hxa2 : x.id = a2
      · rw [(hbw x hx).2.1 hxa2] at hxy
        rcases List.mem_append.mp hxy with hxy | hxy
        · by_cases hya1 : y.id = a1
          · rw [(hbw y hy).1 hya1, hxa2]
            simp
          · have hya2 : y.id ≠ a2 := by
              intro hh
              rw [← hid2] at hh
              exact hirr album2 hm2 (hh ▸ hxy)
            obtain ⟨y₀, hy₀, hyi, hyb⟩ := (hbw y hy).2.2 hya1 hya2
            rw [hyb, hxa2, ← hid2]
            exact hsym album2 hm2 y₀ hy₀ (by rw [← hyi]; exact hxy)
        · have hya1 : y.id = a1 := by simpa using hxy
          rw [(hbw y hy).1 hya1, hxa2]
          simp
      · obtain ⟨x₀, hx₀, hxi, hxb⟩ := (hbw x hx).2.2 hxa1 hxa2
        rw [hxb] at hxy
        by_cases hya1 : y.id = a1
        · have hmem : album1.id ∈ x₀.battledWith := by
            rw [hid1, ← hya1]
            exact hxy
          have := hsym x₀ hx₀ album1 hm1 hmem
          rw [(hbw y hy).1 hya1, hxi]
          exact List.mem_append.mpr (Or.inl this)
        · by_cases hya2 : y.id = a2
          · have hmem : album2.id ∈ x₀.battledWith := by
              rw [hid2, ← hya2]
              exact hxy
            have := hsym x₀ hx₀ album2 hm2 hmem
            rw [(hbw y hy).2.1 hya2, hxi]
            exact List.mem_append.mpr (Or.inl this)
          · obtain ⟨y₀, hy₀, hyi, hyb⟩ := (hbw y hy).2.2 hya1 hya2
            rw [hyb, hxi]
            exact hsym x₀ hx₀ y₀ hy₀ (by rw [← hyi]; exact hxy)
  · -- irreflexive
    intro x hx
    by_cases hxa1 : x.id = a1
    · rw [(hbw x hx).1 hxa1, hxa1]
      intro hmem
      rcases List.mem_append.mp hmem with hmem | hmem
      · exact hirr album1 hm1 (hid1 ▸ hmem)
      · exact hne (by simpa using hmem)
    · by_cases hxa2 : x.id = a2
      · rw [(hbw x hx).2.1 hxa2, hxa2]
        intro hmem
        rcases List.mem_append.mp hmem with hmem | hmem
        · exact hirr album2 hm2 (hid2 ▸ hmem)
        · have h21 : a2 = a1 := by simpa using hmem
          exact hne h21.symm
      · obtain ⟨x₀, hx₀, hxi, hxb⟩ := (hbw x hx).2.2 hxa1 hxa2
        rw [hxb, hxi]
        exact hirr x₀ hx₀

/-- C9 (amended): every operation — add (with a non-colliding generated id),
delete, manual rank update, reorder, and `recordBattle` called with two
DISTINCT ids — preserves the opponents-relation invariant (unique ids,
symmetric, irreflexive) of the read-back collection, whether the call
succeeds or fails.  The distinctness proviso is forced: a self-battle
violates irreflexivity (see the counterexample). -/
theorem opponents_invariant :
    (∀ (s : Store) (albumData : AlbumSearchResult) (newId : String),
      OppInv (getAlbums s) →
      (∀ x ∈ getAlbums s, newId ≠ x.id ∧ newId ∉ x.battledWith) →
      OppInv (getAlbums (runAdd albumData newId s))) ∧
    (∀ (s : Store) (albumId : String),
      OppInv (getAlbums s) → OppInv (getAlbums (runDelete albumId s))) ∧
    (∀ (s : Store) (albumId : String) (newRank : Int),
      OppInv (getAlbums s) →
      OppInv (getAlbums (runUpdateRank albumId newRank s))) ∧
    (∀ (s : Store) (draggedId targetId : String),
      OppInv (getAlbums s) →
      OppInv (getAlbums (runReorder draggedId targetId s))) ∧
    (∀ (s : Store) (a1 a2 : String) (w : Option String),
      a1 ≠ a2 → OppInv (getAlbums s) →
      OppInv (getAlbums (runBattle a1 a2 w s))) := by
  refine ⟨?_, ?_, ?_, ?_, ?_⟩
  · intro s albumData newId hinv hfresh
    rcases ha : addAlbum albumData newId s with e | ⟨na, s₁⟩
    · simpa [runAdd, ha] using hinv
    · simp only [runAdd, ha]
      obtain ⟨hnaid, hnabw, _, hs1⟩ := addAlbum_ok_inv ha
      subst hs1
      rw [getAlbums_present_toStored]
      exact oppInv_of_core_perm (norm_core_perm _)
        (oppInv_append_fresh hinv hfresh hnaid hnabw)
  · intro s albumId hinv
    rcases hd : deleteAlbum albumId s with e | s₁
    · simpa [runDelete, hd] using hinv
    · simp only [runDelete, hd]
      obtain ⟨i, deleted, hidx, hget, hs1⟩ := deleteAlbum_ok_inv hd
      subst hs1
      rw [getAlbums_present_toStored]
      have hcore : (((getAlbums s).eraseIdx i).map (fun album =>
          if deleted.rank < album.rank then { album with rank := album.rank - 1 }
          else album)).map core = ((getAlbums s).eraseIdx i).map core := by
        rw [List.map_map]
        apply List.map_congr_left
        intro a _
        show core (if deleted.rank < a.rank then
          { a with rank := a.rank - 1 } else a) = core a
        split_ifs <;> rfl
      refine oppInv_of_core_perm ?_
        (oppInv_sublist (List.eraseIdx_sublist _ i) hinv)
      exact (norm_core_perm _).trans (hcore ▸ List.Perm.refl _)
  · intro s albumId newRank hinv
    rw [runUpdateRank_read]
    exact hinv
  · intro s draggedId targetId hinv
    rw [runReorder_read]
    exact hinv
  · intro s a1 a2 w hne hinv
    rcases hb : recordBattle a1 a2 w s with e | ⟨r, s₁⟩
    · simpa [runBattle, hb] using hinv
    · simp only [runBattle, hb]
      exact oppInv_battle hne hinv hb

/-- A one-album collection for the self-battle counterexample. -/
def demoC9 : Store := .present [mkStored "x" 0 []]

/-- C9 (counterexample): a `recordBattle` call with the two ids equal — a
self-battle, which the code does not reject — succeeds as a draw and pushes
the album's own id into its `battledWith` (twice, through the aliased array
reference), so the opponents relation is no longer irreflexive. -/
theorem opponents_selfbattle_counterexample :
    IrreflRel (getAlbums demoC9) ∧
    recordBattle "x" "x" none demoC9 =
      .ok (demoDrawResult, runBattle "x" "x" none demoC9) ∧
    (getAlbums (runBattle "x" "x" none demoC9)).map
      (fun a => (a.id, a.battledWith)) = [("x", ["x", "x"])] ∧
    ¬ IrreflRel (getAlbums (runBattle "x" "x" none demoC9)) :=
  ⟨by decide, by rfl, by rfl, by decide⟩

/-- A two-album collection satisfying the opponents invariant. -/
def demoC9W : Store := .present [mkStored "p" 0 [], mkStored "q" 0 []]

/-- A search result used for the invariant-preservation witness. -/
def demoSearchC9 : AlbumSearchResult :=
  { id := "mb-z", title := "t", artist := "ar", releaseYear := "1999",
    coverArtUrl := none }

/-- Witness for the amended C9 theorem at a concrete store: a distinct-id
battle and a fresh-id add both preserve the invariant. -/
theorem opponents_invariant_witness :
    OppInv (getAlbums demoC9W) ∧ ("p" : String) ≠ "q" ∧
    OppInv (getAlbums (runBattle "p" "q" none demoC9W)) ∧
    (∀ x ∈ getAlbums demoC9W, "z" ≠ x.id ∧ "z" ∉ x.battledWith) ∧
    OppInv (getAlbums (runAdd demoSearchC9 "z" demoC9W)) := by
  have hinv : OppInv (getAlbums demoC9W) := by decide
  have hne : ("p" : String) ≠ "q" := by decide
  have hfresh : ∀ x ∈ getAlbums demoC9W, "z" ≠ x.id ∧ "z" ∉ x.battledWith := by
    decide
  exact ⟨hinv, hne, opponents_invariant.2.2.2.2 demoC9W "p" "q" none hne hinv,
    hfresh, opponents_invariant.1 demoC9W demoSearchC9 "z" hinv hfresh⟩

/-! ### Add followed by delete -/

theorem sortByPoints_append_singleton {l : List Album} (a : Album)
    (h : SortedDesc l) :
    sortByPoints (l ++ [a]) =
      l.takeWhile (fun b => a.points ≤ b.points) ++
        a :: l.dropWhile (fun b => a.points ≤ b.points) := by
  induction l with
  | nil => rfl
  | cons x l' ih =>
    rcases List.pairwise_cons.mp h with ⟨hx, hl'⟩
    have hstep : sortByPoints ((x :: l') ++ [a]) =
        insertDesc x (sortByPoints (l' ++ [a])) := rfl
    rw [hstep, ih hl']
    by_cases hax : a.points ≤ x.points
    · rw [List.takeWhile_cons_of_pos (by simpa using hax),
        List.dropWhile_cons_of_pos (by simpa using hax)]
      cases htw : l'.takeWhile (fun b => a.points ≤ b.points) with
      | nil =>
        simp only [List.nil_append]
        rw [show insertDesc x (a :: l'.dropWhile (fun b => a.points ≤ b.points)) =
          x :: a :: l'.dropWhile (fun b => a.points ≤ b.points) from by
            simp [insertDesc, hax]]
        simp
      | cons y ty =>
        have hy : y ∈ l' := by
          have hsub : List.Sublist
              (l'.takeWhile (fun b => a.points ≤ b.points)) l' :=
            List.takeWhile_sublist _
          apply hsub.subset
          rw [htw]
          simp
        have hyx : y.points ≤ x.points := hx y hy
        simp only [List.cons_append]
        rw [show insertDesc x (y :: (ty ++ a ::
          l'.dropWhile (fun b => a.points ≤ b.points))) =
          x :: y :: (ty ++ a :: l'.dropWhile (fun b => a.points ≤ b.points))
          from by simp [insertDesc, hyx]]
    · have hlt : ∀ b ∈ l', ¬ (a.points ≤ b.points) := by
        intro b hb hab
        exact hax (le_trans hab (hx b hb))
      have htw' : l'.takeWhile (fun b => a.points ≤ b.points) = [] := by
        cases l' with
        | nil => rfl
        | cons z t =>
          exact List.takeWhile_cons_of_neg (by
            simpa using hlt z (by simp))
      have hdw' : l'.dropWhile (fun b => a.points ≤ b.points) = l' := by
        cases l' with
        | nil => rfl
        | cons z t =>
          exact List.dropWhile_cons_of_neg (by
            simpa using hlt z (by simp))
      rw [htw', hdw', List.takeWhile_cons_of_neg (by simpa using hax),
        List.dropWhile_cons_of_neg (by simpa using hax)]
      simp only [List.nil_append]
      rw [show insertDesc x (a :: l') = a :: insertDesc x l' from by
        simp [insertDesc, hax]]
      rw [insertDesc_of_le hx]

theorem findIdx?_append_cons {α : Type} (p : α → Bool) (A B : List α) (a : α)
    (hA : ∀ x ∈ A, p x = false) (ha : p a = true) :
    (A ++ a :: B).findIdx? p = some A.length := by
  induction A with
  | nil => simp [ha]
  | cons x t ih =>
    have hx : p x = false := hA x (by simp)
    simp only [List.cons_append, List.findIdx?_cons, hx, Bool.false_eq_true,
      if_false, List.findIdx?_succ]
    rw [ih (fun y hy => hA y (by simp [hy]))]
    rfl

theorem getElem?_append_cons {α : Type} (A B : List α) (a : α) :
    (A ++ a :: B)[A.length]? = some a := by
  induction A with
  | nil => simp
  | cons x t ih => simpa using ih

theorem eraseIdx_append_cons {α : Type} (A B : List α) (a : α) :
    (A ++ a :: B).eraseIdx A.length = A ++ B := by
  induction A with
  | nil => rfl
  | cons x t ih => simp [List.eraseIdx, ih]

theorem assignRanksFrom_rank_lt {n : Int} {l : List Album} {x : Album}
    (h : x ∈ assignRanksFrom n l) : x.rank < n + l.length := by
  induction l generalizing n with
  | nil => simp [assignRanksFrom] at h
  | cons a t ih =>
    rcases List.mem_cons.mp h with rfl | h
    · have hr : ({ a with rank := n } : Album).rank = n := rfl
      rw [hr]
      simp only [List.length_cons]
      push_cast
      omega
    · have h2 := ih h
      simp only [List.length_cons]
      have h3 : (n : Int) + ((t.length + 1 : Nat) : Int) = (n + 1) + t.length := by
        push_cast
        ring
      rw [h3]
      exact h2

theorem assignRanksFrom_map_sub1 (n : Int) (l : List Album) :
    (assignRanksFrom n l).map (fun a => { a with rank := a.rank - 1 }) =
      assignRanksFrom (n - 1) l := by
  induction l generalizing n with
  | nil => rfl
  | cons a t ih =>
    simp only [assignRanksFrom, List.map_cons, List.cons.injEq]
    constructor
    · trivial
    · rw [ih]
      congr 1
      omega

theorem assignRanksFrom_map_ids (n : Int) (l : List Album) :
    (assignRanksFrom n l).map (fun a => a.id) = l.map (fun a => a.id) := by
  have h := congrArg (List.map (fun p : String × Int × List String => p.1))
    (map_core_assignRanksFrom n l)
  simpa [List.map_map, core, Function.comp] using h

/-- C10: adding a new album whose catalog id is not yet ranked, with a
generated id that does not collide with any existing id, and then deleting
the created album returns the persisted collection to an equivalent state:
the read-back collection — ids, scores, ranks and all display fields — is
identical to the read before the add. -/
theorem add_delete_roundtrip (s : Store) (albumData : AlbumSearchResult)
    (newId : String) (na : Album) (s₁ : Store)
    (hfresh : newId ∉ (getAlbums s).map (fun a => a.id))
    (h : addAlbum albumData newId s = .ok (na, s₁)) :
    ∃ s₂ : Store, deleteAlbum newId s₁ = .ok s₂ ∧
      getAlbums s₂ = getAlbums s := by
  obtain ⟨hnaid, hnabw, hnapts, hs1⟩ := addAlbum_ok_inv h
  subst hs1
  have hsorted : SortedDesc (getAlbums s) := by
    unfold getAlbums assignRanks
    exact assignRanksFrom_sorted (sortByPoints_sorted _)
  have hLfix : assignRanks (getAlbums s) = getAlbums s := by
    unfold getAlbums assignRanks
    exact assignRanksFrom_idem 1 1 _
  set L := getAlbums s with hLdef
  set tw := L.takeWhile (fun b => na.points ≤ b.points) with htwdef
  set dw := L.dropWhile (fun b => na.points ≤ b.points) with hdwdef
  have hD : getAlbums (.present ((L ++ [na]).map toStored)) =
      assignRanksFrom 1 tw ++
        ({ na with rank := 1 + (tw.length : Int) } ::
          assignRanksFrom (1 + (tw.length : Int) + 1) dw) := by
    rw [getAlbums_present_toStored, sortByPoints_append_singleton na hsorted]
    show assignRanksFrom 1 (tw ++ na :: dw) = _
    rw [assignRanksFrom_append]
    rfl
  have hAids : ∀ x ∈ assignRanksFrom 1 tw, decide (x.id = newId) = false := by
    intro x hx
    have hxid : x.id ∈ tw.map (fun a => a.id) := by
      rw [← assignRanksFrom_map_ids 1 tw]
      exact List.mem_map_of_mem _ hx
    have hxid' : x.id ∈ L.map (fun a => a.id) := by
      have hsub : List.Sublist tw L := List.takeWhile_sublist _
      exact (hsub.map (fun a => a.id)).subset hxid
    have : x.id ≠ newId := by
      intro hh
      rw [hh] at hxid'
      exact hfresh hxid'
    simp [this]
  have hfd : (getAlbums (.present ((L ++ [na]).map toStored))).findIdx?
      (fun album => album.id = newId) = some tw.length := by
    rw [hD, findIdx?_append_cons _ _ _ _ hAids (by simp [hnaid]),
      assignRanksFrom_length]
  have hget : (getAlbums (.present ((L ++ [na]).map toStored)))[tw.length]? =
      some { na with rank := 1 + (tw.length : Int) } := by
    rw [hD, show tw.length = (assignRanksFrom 1 tw).length from
      (assignRanksFrom_length 1 tw).symm, getElem?_append_cons]
  have hdel : deleteAlbum newId (.present ((L ++ [na]).map toStored)) =
      .ok (.present ((((getAlbums (.present ((L ++ [na]).map
        toStored))).eraseIdx tw.length).map (fun album =>
          if ({ na with rank := 1 + (tw.length : Int) } : Album).rank <
              album.rank
          then { album with rank := album.rank - 1 }
          else album)).map toStored)) := by
    simp only [deleteAlbum, hfd, hget]
  have herase : (getAlbums (.present ((L ++ [na]).map
      toStored))).eraseIdx tw.length =
      assignRanksFrom 1 tw ++ assignRanksFrom (1 + (tw.length : Int) + 1) dw := by
    rw [hD, show tw.length = (assignRanksFrom 1 tw).length from
      (assignRanksFrom_length 1 tw).symm, eraseIdx_append_cons]
  have hadj : ((getAlbums (.present ((L ++ [na]).map
      toStored))).eraseIdx tw.length).map (fun album =>
        if ({ na with rank := 1 + (tw.length : Int) } : Album).rank <
            album.rank
        then { album with rank := album.rank - 1 }
        else album) = assignRanks L := by
    rw [herase, List.map_append]
    have hrk : ({ na with rank := 1 + (tw.length : Int) } : Album).rank =
        1 + (tw.length : Int) := rfl
    have hmapA : (assignRanksFrom 1 tw).map (fun album =>
        if ({ na with rank := 1 + (tw.length : Int) } : Album).rank <
            album.rank
        then { album with rank := album.rank - 1 }
        else album) = assignRanksFrom 1 tw := by
      rw [show (assignRanksFrom 1 tw).map (fun album =>
          if ({ na with rank := 1 + (tw.length : Int) } : Album).rank <
              album.rank
          then { album with rank := album.rank - 1 }
          else album) = (assignRanksFrom 1 tw).map id from ?_, List.map_id]
      apply List.map_congr_left
      intro x hx
      have hlt := assignRanksFrom_rank_lt hx
      rw [hrk, if_neg (by omega)]
      rfl
    have hmapB : (assignRanksFrom (1 + (tw.length : Int) + 1) dw).map
        (fun album =>
          if ({ na with rank := 1 + (tw.length : Int) } : Album).rank <
              album.rank
          then { album with rank := album.rank - 1 }
          else album) =
        assignRanksFrom (1 + (tw.length : Int)) dw := by
      rw [show (assignRanksFrom (1 + (tw.length : Int) + 1) dw).map
          (fun album =>
            if ({ na with rank := 1 + (tw.length : Int) } : Album).rank <
                album.rank
            then { album with rank := album.rank - 1 }
            else album) =
          (assignRanksFrom (1 + (tw.length : Int) + 1) dw).map
            (fun album => { album with rank := album.rank - 1 }) from ?_]
      · rw [assignRanksFrom_map_sub1]
        congr 1
        omega
      · apply List.map_congr_left
        intro x hx
        have hge := assignRanksFrom_rank_mem hx
        rw [hrk, if_pos (by omega)]
    rw [hmapA, hmapB, ← assignRanksFrom_append]
    rw [List.takeWhile_append_dropWhile]
    rfl
  refine ⟨_, hdel, ?_⟩
  rw [hadj, hLfix, getAlbums_present_toStored,
    sortByPoints_of_sorted hsorted, hLfix]

/-- A two-album collection for the add/delete round-trip witness. -/
def demoC10 : Store := .present [mkStored "a" 5 [], mkStored "b" 1 []]

/-- A search result not yet ranked in `demoC10`. -/
def demoSearchC10 : AlbumSearchResult :=
  { id := "mb-new", title := "nt", artist := "nar", releaseYear := "2010",
    coverArtUrl := none }

/-- The album created by adding `demoSearchC10` to `demoC10` under the
generated id `album_z` (ranks 1 and 2 are taken, so it gets rank 3). -/
def demoC10Added : Album :=
  { id := "album_z", title := "nt", artist := "nar", releaseYear := "2010",
    coverArtUrl := none, mbid := "mb-new", rank := 3, points := 0,
    battledWith := [] }

/-- Witness for the C10 theorem at a concrete add-then-delete. -/
theorem add_delete_roundtrip_witness :
    ("album_z" ∉ (getAlbums demoC10).map (fun a => a.id)) ∧
    addAlbum demoSearchC10 "album_z" demoC10 =
      .ok (demoC10Added, runAdd demoSearchC10 "album_z" demoC10) ∧
    ∃ s₂ : Store,
      deleteAlbum "album_z" (runAdd demoSearchC10 "album_z" demoC10) =
        .ok s₂ ∧
      getAlbums s₂ = getAlbums demoC10 := by
  have hfresh : "album_z" ∉ (getAlbums demoC10).map (fun a => a.id) := by
    decide
  have hok : addAlbum demoSearchC10 "album_z" demoC10 =
      .ok (demoC10Added, runAdd demoSearchC10 "album_z" demoC10) := by rfl
  exact ⟨hfresh, hok, add_delete_roundtrip demoC10 demoSearchC10 "album_z"
    demoC10Added _ hfresh hok⟩

end Gauntlet
